import Mathlib

/-
Verification development for the passphrase-based authentication and
authorization core of the online-kueaplan repository.  The repository ships
the Python test suite (tests/api, tests/ui, tests/command_line) for a Rust
server whose source lives outside the tree, so the core operations are
modelled from the specification (spec.md), with the repository's tests used
as binding evidence wherever they pin concrete behavior (login error
messages, secret masking, session-token handling).
-/

deriving instance DecidableEq for Except

namespace KueaPlan

/-- Modelled from the spec: timestamps (`valid_from`/`valid_until`, the `now`
argument of authorization calls); modelled as integers. -/
abbrev Time := Int

abbrev EventId := Nat

abbrev PassphraseId := Nat

/-- Modelled from the spec: opaque session tokens.  Modelled as naturals
minted from a monotonic counter, which captures "opaque, unguessable, never
reused" at the level of the claims (fresh tokens differ from all live ones). -/
abbrev Token := Nat

/-- Modelled from the spec: the six capability levels of section 3, ordered by
increasing privilege, with `-sharable` variants earmarked for link
distribution. -/
inductive Role
  | participant
  | participantSharable
  | orga
  | orgaSharable
  | admin
  | adminSharable
deriving DecidableEq, Repr

/-- Modelled from the spec: a passphrase record (section 3), belonging to
exactly one event; `secret` is optional (absent for some derived records),
validity bounds are optional (absent means unbounded). -/
structure Passphrase where
  id : PassphraseId
  secret : Option String
  role : Role
  derivable_from_passphrase : Option PassphraseId
  comment : Option String
  valid_from : Option Time
  valid_until : Option Time
deriving DecidableEq, Repr

/-- Modelled from the spec: a passphrase is usable for authorization at time
`t` iff `valid_from ≤ t` (or absent) and `t ≤ valid_until` (or absent); a
deleted record is gone from the catalog and an invalidated one has had
`valid_until` set to the revocation instant. -/
def usableAt (p : Passphrase) (t : Time) : Bool :=
  (match p.valid_from with
   | none => true
   | some v => decide (v ≤ t)) &&
  (match p.valid_until with
   | none => true
   | some v => decide (t ≤ v))

/-- Modelled from the spec: the per-event Passphrase Catalog (section 4.1)
with its monotonic id counter ("small sequential integer, never reused after
deletion"). -/
structure Catalog where
  records : List Passphrase
  nextId : PassphraseId
deriving DecidableEq, Repr

/-- Modelled from the spec: the failure outcomes of catalog operations
(section 4.1 and section 7). -/
inductive CatalogError
  | DuplicateSecret
  | EntityNotFound
deriving DecidableEq, Repr

/-- Modelled from the spec: the caller-supplied part of a passphrase record;
the catalog assigns the id at insertion. -/
structure PassphraseData where
  secret : Option String
  role : Role
  derivable_from_passphrase : Option PassphraseId
  comment : Option String
  valid_from : Option Time
  valid_until : Option Time
deriving DecidableEq, Repr

def PassphraseData.toRecord (d : PassphraseData) (i : PassphraseId) : Passphrase :=
  ⟨i, d.secret, d.role, d.derivable_from_passphrase, d.comment, d.valid_from, d.valid_until⟩

/-- Modelled from the spec: the duplicate check of `add` (section 4.1) — a
present secret colliding with a *currently usable* record of the same
event. -/
def hasUsableDuplicate (records : List Passphrase) (secret : Option String) (now : Time) : Bool :=
  records.any (fun p => secret.isSome && decide (p.secret = secret) && usableAt p now)

/-- Modelled from the spec: `add(event, record)` of section 4.1; fails with
`DuplicateSecret` if another currently usable passphrase of the event has an
identical secret, otherwise inserts with the next sequential id. -/
def catalogAdd (cat : Catalog) (d : PassphraseData) (now : Time) : Except CatalogError Catalog :=
  if hasUsableDuplicate cat.records d.secret now then
    .error .DuplicateSecret
  else
    .ok ⟨cat.records ++ [d.toRecord cat.nextId], cat.nextId + 1⟩

/-- Modelled from the spec: `remove(event, id)` of section 4.1, a hard
delete; `EntityNotFound` on a nonexistent id. -/
def catalogRemove (cat : Catalog) (i : PassphraseId) : Except CatalogError Catalog :=
  if cat.records.any (fun p => p.id == i) then
    .ok ⟨cat.records.filter (fun p => p.id != i), cat.nextId⟩
  else
    .error .EntityNotFound

/-- Modelled from the spec: `invalidate(event, id)` of section 4.1, a soft
revoke that sets `valid_until` to now and preserves history. -/
def catalogInvalidate (cat : Catalog) (i : PassphraseId) (now : Time) : Except CatalogError Catalog :=
  if cat.records.any (fun p => p.id == i) then
    .ok ⟨cat.records.map (fun p => if p.id == i then { p with valid_until := some now } else p),
         cat.nextId⟩
  else
    .error .EntityNotFound

/-- Modelled from the spec: the outcome of the Credential Matcher
(section 4.2).  The spec text says a uniform `NoMatch` is returned whether or
not a matching-but-expired record exists, but the repository's UI tests
(tests/ui/test_manage_passphrases.py) require distinct login errors for an
unknown secret ("Ungültige Passphrase.") and for a secret matching only an
invalidated/expired record ("nicht mehr (oder noch nicht) gültig."), so the
matcher distinguishes the two failure cases. -/
inductive MatchResult
  | matched (p : Passphrase)
  | noMatch
  | notCurrentlyValid
deriving DecidableEq, Repr

/-- Modelled from the spec: `match(event, candidate_secret, now)` of
section 4.2 — an exact, byte-for-byte scan for a currently usable record with
the candidate secret; the failure case distinguishes "no record with this
secret" from "matching record exists but is not currently valid", per the UI
test evidence cited at `MatchResult`. -/
def matchSecret (records : List Passphrase) (candidate : String) (now : Time) : MatchResult :=
  match records.find? (fun p => decide (p.secret = some candidate) && usableAt p now) with
  | some p => .matched p
  | none =>
      if records.any (fun p => decide (p.secret = some candidate)) then .notCurrentlyValid
      else .noMatch

/-- Modelled from the spec: the mapping from a base role to its `-sharable`
counterpart (section 4.3, section 9); sharable roles have no counterpart of
their own, so derivation from them always fails the role check. -/
def sharableCounterpart : Role → Option Role
  | .participant => some .participantSharable
  | .orga => some .orgaSharable
  | .admin => some .adminSharable
  | _ => none

/-- Modelled from the spec: the failure outcomes of the Link-Derivation
Engine (section 4.3). -/
inductive DeriveError
  | ParentNotUsable
  | InvalidRoleDerivation
deriving DecidableEq, Repr

/-- Length of the longest secret present in a record list; used by the
modelled fresh-secret generator. -/
def maxSecretLength (records : List Passphrase) : Nat :=
  records.foldr (fun p acc => max (match p.secret with | some s => s.length | none => 0) acc) 0

/-- Modelled from the spec: the freshly generated high-entropy secret of
section 4.3.  The spec leaves the generation mechanism open (section 9) and
mandates only independence from existing secrets; modelled as a concrete
string strictly longer than every secret in the catalog, hence distinct from
all of them. -/
def freshSecret (cat : Catalog) : String :=
  String.mk (List.replicate (maxSecretLength cat.records + 1) 'x')

/-- Modelled from the spec: `derive(event, parent_id, requested_role)` of
section 4.3.  Fails with `ParentNotUsable` if the parent is missing or not
currently usable, with `InvalidRoleDerivation` if the requested role is not
the sharable counterpart of the parent's role; on success inserts a record
with a fresh secret, provenance `derivable_from_passphrase = parent_id`, the
requested role, and no explicit validity window. -/
def derive (cat : Catalog) (parentId : PassphraseId) (requested : Role) (now : Time) :
    Except DeriveError (Catalog × Passphrase) :=
  match cat.records.find? (fun p => p.id == parentId) with
  | none => .error .ParentNotUsable
  | some parent =>
      if usableAt parent now then
        if sharableCounterpart parent.role = some requested then
          let record : Passphrase :=
            { id := cat.nextId, secret := some (freshSecret cat), role := requested,
              derivable_from_passphrase := some parentId, comment := none,
              valid_from := none, valid_until := none }
          .ok (⟨cat.records ++ [record], cat.nextId + 1⟩, record)
        else .error .InvalidRoleDerivation
      else .error .ParentNotUsable

/-- Modelled from the spec: the secret mask of `format_for_listing`
(section 4.4).  The spec's example says "user" becomes "****r", but the
repository's command-line test (tests/command_line/test_manage_passphrases.py)
pins the mask of "user" to exactly "***r" and of "admin" to "****n"
(length-preserving), and the API test (tests/api/test_passphrase_api.py,
test_extended_attributes) requires the mask of the 25-character secret
"the-secret-new-passphrase" to still end in "rase"; the modelled rule keeps
the final sixth of the secret (at least its final character) visible and
replaces the rest by asterisks, matching all three test points. -/
def maskSecret (s : String) : String :=
  let n := s.length
  let visible := max 1 (n / 6)
  String.mk (List.replicate (n - visible) '*' ++ s.data.drop (n - visible))

/-- Modelled from the spec: the administrative display view of a passphrase
record (section 4.4); identical to the record except that the secret is shown
masked. -/
structure DisplayRecord where
  id : PassphraseId
  secret : Option String
  role : Role
  derivable_from_passphrase : Option PassphraseId
  comment : Option String
  valid_from : Option Time
  valid_until : Option Time
deriving DecidableEq, Repr

/-- Modelled from the spec: `format_for_listing(record)` of section 4.4 — a
pure transform whose displayed secret is `None` exactly when the stored
secret is absent and otherwise the masked secret. -/
def format_for_listing (p : Passphrase) : DisplayRecord :=
  ⟨p.id, p.secret.map maskSecret, p.role, p.derivable_from_passphrase, p.comment,
   p.valid_from, p.valid_until⟩

/-- Modelled from the spec: a server-side session (section 3).  The UI tests
(tests/ui/test_manage_passphrases.py) show that deleting or invalidating a
passphrase immediately revokes access of sessions that logged in with it, so
each grant records the backing passphrase: a grant is a pair of the event and
the id of the passphrase that was presented, and the granted role is resolved
against the catalog at every check. -/
structure Session where
  grants : List (EventId × PassphraseId)
deriving DecidableEq, Repr

/-- Modelled from the spec: the Session Store (section 4.5), an association
of opaque tokens to sessions together with the counter minting fresh
tokens. -/
structure SessionStore where
  sessions : List (Token × Session)
  nextToken : Token
deriving DecidableEq, Repr

/-- Lookup of a token in the session association list. -/
def lookupSession : List (Token × Session) → Token → Option Session
  | [], _ => none
  | ts :: rest, t => if ts.1 = t then some ts.2 else lookupSession rest t

/-- Modelled from the spec: `get(token)` of section 4.5, returning the
session or a distinguished absent result. -/
def SessionStore.get (store : SessionStore) (t : Token) : Option Session :=
  lookupSession store.sessions t

/-- Replace the session bound to a token, leaving other bindings and the
token counter unchanged. -/
def SessionStore.set (store : SessionStore) (t : Token) (sess : Session) : SessionStore :=
  ⟨store.sessions.map (fun ts => if ts.1 = t then (t, sess) else ts), store.nextToken⟩

/-- Modelled from the spec: removal of a token binding (token rotation and
`drop_all`, section 4.5); the counter never decreases, so removed tokens are
never minted again. -/
def SessionStore.remove (store : SessionStore) (t : Token) : SessionStore :=
  ⟨store.sessions.filter (fun ts => ts.1 != t), store.nextToken⟩

/-- Modelled from the spec: the whole mutable state of the core — the
per-event catalogs and the session store. -/
structure State where
  catalogs : List (EventId × Catalog)
  store : SessionStore
deriving DecidableEq, Repr

/-- Lookup of an event's catalog in the association list. -/
def lookupCatalog : List (EventId × Catalog) → EventId → Option Catalog
  | [], _ => none
  | ec :: rest, e => if ec.1 = e then some ec.2 else lookupCatalog rest e

/-- The catalog of an event; an unknown event has the empty catalog. -/
def State.catalog (st : State) (e : EventId) : Catalog :=
  (lookupCatalog st.catalogs e).getD ⟨[], 1⟩

/-- Replace one event's catalog, leaving the others and the store unchanged. -/
def State.setCatalog (st : State) (e : EventId) (cat : Catalog) : State :=
  if st.catalogs.any (fun ec => ec.1 == e) then
    { st with catalogs := st.catalogs.map (fun ec => if ec.1 = e then (e, cat) else ec) }
  else
    { st with catalogs := (e, cat) :: st.catalogs }

/-- Modelled from the spec: the reason carried by an authentication failure.
Both failure cases are an `InvalidCredential` outcome of `authorize`
(section 4.6), but the repository's UI tests show distinct user-facing
messages ("Ungültige Passphrase." versus "nicht mehr (oder noch nicht)
gültig."), so the reason is part of the outcome. -/
inductive MatchFailure
  | unknownSecret
  | notCurrentlyValid
deriving DecidableEq, Repr

/-- Modelled from the spec: the error kinds of the Authorization Service
(section 4.6 and section 7) used by the claims. -/
inductive AuthError
  | InvalidCredential (reason : MatchFailure)
  | GrantNotHeld
  | InvalidSessionToken
deriving DecidableEq, Repr

/-- Insert a grant into a grant list unless already present (grants form a
set: duplicates collapse, section 3). -/
def insertGrant (grants : List (EventId × PassphraseId)) (g : EventId × PassphraseId) :
    List (EventId × PassphraseId) :=
  if g ∈ grants then grants else grants ++ [g]

/-- The role a grant currently confers: the role of the backing passphrase if
it still exists in its event's catalog and is usable now, nothing
otherwise. -/
def roleOfGrant (st : State) (g : EventId × PassphraseId) (now : Time) : Option Role :=
  match (st.catalog g.1).records.find? (fun p => p.id == g.2 && usableAt p now) with
  | some p => some p.role
  | none => none

/-- Modelled from the spec: the `AuthorizationInfo` view for one event
(section 3) — the set of roles the session's grants currently confer for that
event, without duplicates. -/
def sessionRoles (st : State) (sess : Session) (e : EventId) (now : Time) : List Role :=
  ((sess.grants.filter (fun g => g.1 == e)).filterMap (fun g => roleOfGrant st g now)).dedup

/-- Modelled from the spec: `check_authorization(token_or_none, event_id)` of
section 4.6, a pure read.  An absent token yields the empty grant set; a
token not bound to any live session is reported as `InvalidSessionToken`,
distinctly from "no token supplied" (section 4.5 `get -> Invalid`, section 7,
and tests/ui/test_errors.py test_session_error, where a broken session cookie
produces "Der Session-Token ist ungültig" instead of the anonymous view). -/
def check_authorization (st : State) (tok : Option Token) (e : EventId) (now : Time) :
    Except AuthError (List Role) :=
  match tok with
  | none => .ok []
  | some t =>
      match st.store.get t with
      | none => .error .InvalidSessionToken
      | some sess => .ok (sessionRoles st sess e now)

/-- The roles a `check_authorization` outcome reports (an error reports
none). -/
def reportedRoles (x : Except AuthError (List Role)) : List Role :=
  match x with
  | .ok roles => roles
  | .error _ => []

/-- Modelled from the spec: `authorize(token_or_none, event_id,
candidate_secret, now)` of section 4.6.  Runs the Credential Matcher; on
failure returns `InvalidCredential` carrying the match-failure reason; on a
match adds the grant to the session identified by the token, minting a fresh
session when no live one is identified, and returns the token and the
event's current grant set. -/
def authorize (st : State) (tok : Option Token) (e : EventId) (candidate : String) (now : Time) :
    Except AuthError (State × Token × List Role) :=
  match matchSecret (st.catalog e).records candidate now with
  | .noMatch => .error (.InvalidCredential .unknownSecret)
  | .notCurrentlyValid => .error (.InvalidCredential .notCurrentlyValid)
  | .matched p =>
      match tok.bind (fun t => (st.store.get t).map (fun sess => (t, sess))) with
      | some (t, sess) =>
          let sess' : Session := ⟨insertGrant sess.grants (e, p.id)⟩
          let st' : State := { st with store := st.store.set t sess' }
          .ok (st', t, sessionRoles st' sess' e now)
      | none =>
          let sess' : Session := ⟨[(e, p.id)]⟩
          let t' := st.store.nextToken
          let st' : State := { st with store := ⟨(t', sess') :: st.store.sessions, t' + 1⟩ }
          .ok (st', t', sessionRoles st' sess' e now)

/-- Whether a grant of the given session backs the role `r` for event `e`:
it belongs to `e` and its backing passphrase (by id) carries role `r`. -/
def grantBacksRole (st : State) (e : EventId) (r : Role) (g : EventId × PassphraseId) : Bool :=
  g.1 == e && (st.catalog e).records.any (fun p => p.id == g.2 && p.role == r)

/-- Modelled from the spec: `drop_access_role(token, event_id, role)` of
section 4.6.  Removes the grants backing exactly that role for the event,
fails with `GrantNotHeld` when none is held, and always rotates the token
(section 4.5: rotation invalidates the old token to bound the blast radius
of a leaked token that has shed a privilege). -/
def drop_access_role (st : State) (tok : Token) (e : EventId) (r : Role) (now : Time) :
    Except AuthError (State × Token × List Role) :=
  match st.store.get tok with
  | none => .error .InvalidSessionToken
  | some sess =>
      if sess.grants.any (grantBacksRole st e r) then
        let sess' : Session := ⟨sess.grants.filter (fun g => !(grantBacksRole st e r g))⟩
        let t' := st.store.nextToken
        let store' : SessionStore := ⟨(t', sess') :: (st.store.remove tok).sessions, t' + 1⟩
        .ok ({ st with store := store' }, t', sessionRoles st sess' e now)
      else .error .GrantNotHeld

/-! Generic helper lemmas about the list-level machinery. -/

theorem find?_eq_of_unique {α : Type} (p : α → Bool) (l : List α) (a : α)
    (ha : a ∈ l) (hpa : p a = true) (huniq : ∀ b ∈ l, p b = true → b = a) :
    l.find? p = some a := by
  induction l with
  | nil => cases ha
  | cons x xs ih =>
      cases hpx : p x with
      | true =>
          rw [List.find?_cons_of_pos _ hpx, huniq x (List.mem_cons_self x xs) hpx]
      | false =>
          rw [List.find?_cons_of_neg _ (by simp [hpx])]
          refine ih ?_ fun b hb hpb => huniq b (List.mem_cons_of_mem _ hb) hpb
          rcases List.mem_cons.mp ha with h | h
          · subst h; rw [hpa] at hpx; cases hpx
          · exact h

theorem lookupSession_set_self (l : List (Token × Session)) (t : Token) (sess : Session)
    (h : (lookupSession l t).isSome) :
    lookupSession (l.map (fun ts => if ts.1 = t then (t, sess) else ts)) t = some sess := by
  induction l with
  | nil => simp [lookupSession] at h
  | cons x xs ih =>
      by_cases hx : x.1 = t
      · simp [lookupSession, hx]
      · have h' : (lookupSession xs t).isSome := by
          simpa [lookupSession, hx] using h
        simp [lookupSession, hx, ih h']

theorem lookupSession_set_ne (l : List (Token × Session)) (t u : Token) (sess : Session)
    (h : u ≠ t) :
    lookupSession (l.map (fun ts => if ts.1 = t then (t, sess) else ts)) u =
      lookupSession l u := by
  induction l with
  | nil => rfl
  | cons x xs ih =>
      by_cases hx : x.1 = t
      · have htu : ¬ t = u := fun hc => h hc.symm
        have hxu : ¬ x.1 = u := fun hc => h (by rw [← hc, hx])
        simp [lookupSession, hx, htu, hxu, ih]
      · by_cases hxu : x.1 = u
        · simp [lookupSession, hx, hxu, h]
        · simp [lookupSession, hx, hxu, ih]

theorem lookupSession_remove_self (l : List (Token × Session)) (t : Token) :
    lookupSession (l.filter (fun ts => ts.1 != t)) t = none := by
  induction l with
  | nil => rfl
  | cons x xs ih =>
      by_cases hx : x.1 = t
      · simp [List.filter_cons, hx, ih]
      · simp [List.filter_cons, bne_iff_ne, hx, lookupSession, ih]

theorem lookupSession_remove_ne (l : List (Token × Session)) (t u : Token) (h : u ≠ t) :
    lookupSession (l.filter (fun ts => ts.1 != t)) u = lookupSession l u := by
  induction l with
  | nil => rfl
  | cons x xs ih =>
      by_cases hx : x.1 = t
      · have hxu : ¬ x.1 = u := fun hc => h (by rw [← hc, hx])
        have htu : ¬ t = u := fun hc => h hc.symm
        simp [List.filter_cons, hx, lookupSession, hxu, htu, ih]
      · by_cases hxu : x.1 = u
        · simp [List.filter_cons, bne_iff_ne, hx, lookupSession, hxu, h]
        · simp [List.filter_cons, bne_iff_ne, hx, lookupSession, hxu, ih]

theorem lookupCatalog_replace_self (l : List (EventId × Catalog)) (e : EventId) (cat : Catalog)
    (h : l.any (fun ec => ec.1 == e) = true) :
    lookupCatalog (l.map (fun ec => if ec.1 = e then (e, cat) else ec)) e = some cat := by
  induction l with
  | nil => cases h
  | cons x xs ih =>
      by_cases hx : x.1 = e
      · simp [lookupCatalog, hx]
      · have h' : xs.any (fun ec => ec.1 == e) = true := by
          simpa [List.any_cons, hx] using h
        simp [lookupCatalog, hx, ih h']

theorem lookupCatalog_replace_ne (l : List (EventId × Catalog)) (e e' : EventId) (cat : Catalog)
    (h : e' ≠ e) :
    lookupCatalog (l.map (fun ec => if ec.1 = e then (e, cat) else ec)) e' =
      lookupCatalog l e' := by
  induction l with
  | nil => rfl
  | cons x xs ih =>
      by_cases hx : x.1 = e
      · have h1 : ¬ e = e' := fun hc => h hc.symm
        have h2 : ¬ x.1 = e' := by rw [hx]; exact h1
        simp [lookupCatalog, hx, h1, h2, ih]
      · by_cases hxe : x.1 = e'
        · simp [lookupCatalog, hx, hxe, h]
        · simp [lookupCatalog, hx, hxe, ih]

theorem catalog_setCatalog_self (st : State) (e : EventId) (cat : Catalog) :
    (st.setCatalog e cat).catalog e = cat := by
  unfold State.setCatalog State.catalog
  by_cases h : st.catalogs.any (fun ec => ec.1 == e) = true
  · simp only [h, if_true]
    rw [lookupCatalog_replace_self st.catalogs e cat h]
    rfl
  · simp only [h, if_false]
    simp [lookupCatalog]

theorem catalog_setCatalog_ne (st : State) (e e' : EventId) (cat : Catalog) (h : e' ≠ e) :
    (st.setCatalog e cat).catalog e' = st.catalog e' := by
  unfold State.setCatalog State.catalog
  by_cases hany : st.catalogs.any (fun ec => ec.1 == e) = true
  · simp only [hany, if_true]
    rw [lookupCatalog_replace_ne st.catalogs e e' cat h]
  · have : ¬ e = e' := fun hc => h hc.symm
    simp only [hany, if_false]
    simp [lookupCatalog, this]

theorem catalog_store_congr (catalogs : List (EventId × Catalog)) (s1 s2 : SessionStore)
    (e : EventId) :
    (State.mk catalogs s1).catalog e = (State.mk catalogs s2).catalog e := rfl

theorem mem_insertGrant (grants : List (EventId × PassphraseId)) (g x : EventId × PassphraseId) :
    x ∈ insertGrant grants g ↔ x ∈ grants ∨ x = g := by
  by_cases h : g ∈ grants
  · simp only [insertGrant, if_pos h]
    exact ⟨Or.inl, fun hx => hx.elim id (fun hx => hx ▸ h)⟩
  · simp [insertGrant, if_neg h]

theorem mem_sessionRoles (st : State) (sess : Session) (e : EventId) (now : Time) (r : Role) :
    r ∈ sessionRoles st sess e now ↔
      ∃ g ∈ sess.grants, g.1 = e ∧ roleOfGrant st g now = some r := by
  unfold sessionRoles
  rw [List.mem_dedup]
  simp only [List.mem_filterMap, List.mem_filter, beq_iff_eq]
  constructor
  · rintro ⟨g, ⟨hg, hge⟩, hrole⟩
    exact ⟨g, hg, hge, hrole⟩
  · rintro ⟨g, hg, hge, hrole⟩
    exact ⟨g, ⟨hg, hge⟩, hrole⟩

theorem roleOfGrant_eq_of_unique (st : State) (e : EventId) (P : Passphrase) (now : Time)
    (hmem : P ∈ (st.catalog e).records)
    (hid : ∀ q ∈ (st.catalog e).records, q.id = P.id → q = P)
    (hus : usableAt P now = true) :
    roleOfGrant st (e, P.id) now = some P.role := by
  unfold roleOfGrant
  rw [find?_eq_of_unique _ _ P hmem (by simp [hus]) ?_]
  intro b hb hpb
  simp only [Bool.and_eq_true, beq_iff_eq] at hpb
  exact hid b hb hpb.1

theorem roleOfGrant_eq_none (st : State) (g : EventId × PassphraseId) (now : Time)
    (h : ∀ p ∈ (st.catalog g.1).records, p.id = g.2 → usableAt p now = false) :
    roleOfGrant st g now = none := by
  unfold roleOfGrant
  rw [List.find?_eq_none.mpr]
  intro p hp
  simp only [Bool.and_eq_true, beq_iff_eq, not_and]
  intro hpid
  simp [h p hp hpid]

theorem matchSecret_matched_of_unique (records : List Passphrase) (P : Passphrase) (s : String)
    (now : Time) (hmem : P ∈ records) (hsec : P.secret = some s) (hus : usableAt P now = true)
    (huniq : ∀ q ∈ records, q.secret = some s → usableAt q now = true → q = P) :
    matchSecret records s now = .matched P := by
  unfold matchSecret
  rw [find?_eq_of_unique _ _ P hmem (by simp [hsec, hus]) ?_]
  intro b hb hpb
  simp only [Bool.and_eq_true, decide_eq_true_eq] at hpb
  exact huniq b hb hpb.1 hpb.2

theorem matchSecret_failure (records : List Passphrase) (s : String) (now : Time)
    (h : ∀ q ∈ records, q.secret = some s → usableAt q now = false) :
    matchSecret records s now =
      (if records.any (fun p => decide (p.secret = some s)) then .notCurrentlyValid
       else .noMatch) := by
  unfold matchSecret
  rw [List.find?_eq_none.mpr]
  intro p hp
  simp only [Bool.and_eq_true, decide_eq_true_eq, not_and]
  intro hps
  simp [h p hp hps]

theorem authorize_fresh_ok (st : State) (tok : Option Token) (e : EventId) (s : String)
    (now : Time) (P : Passphrase)
    (hmatch : matchSecret (st.catalog e).records s now = .matched P)
    (hnolive : tok.bind (fun t => (st.store.get t).map (fun sess => (t, sess))) = none) :
    authorize st tok e s now =
      .ok ({ st with store := ⟨(st.store.nextToken, ⟨[(e, P.id)]⟩) :: st.store.sessions,
                               st.store.nextToken + 1⟩ },
           st.store.nextToken,
           sessionRoles st ⟨[(e, P.id)]⟩ e now) := by
  unfold authorize
  rw [hmatch, hnolive]
  rfl

theorem authorize_live_ok (st : State) (t : Token) (e : EventId) (s : String) (now : Time)
    (P : Passphrase) (sess : Session)
    (hmatch : matchSecret (st.catalog e).records s now = .matched P)
    (hget : st.store.get t = some sess) :
    authorize st (some t) e s now =
      .ok ({ st with store := st.store.set t ⟨insertGrant sess.grants (e, P.id)⟩ }, t,
           sessionRoles st ⟨insertGrant sess.grants (e, P.id)⟩ e now) := by
  unfold authorize
  rw [hmatch]
  have hb : ((some t).bind fun u => Option.map (fun sess => (u, sess)) (st.store.get u)) =
      some (t, sess) := by simp [hget]
  rw [hb]
  rfl

theorem authorize_no_usable (st : State) (tok : Option Token) (e : EventId) (s : String)
    (now : Time)
    (h : ∀ q ∈ (st.catalog e).records, q.secret = some s → usableAt q now = false) :
    authorize st tok e s now =
      (if (st.catalog e).records.any (fun p => decide (p.secret = some s)) then
        .error (.InvalidCredential .notCurrentlyValid)
       else .error (.InvalidCredential .unknownSecret)) := by
  unfold authorize
  rw [matchSecret_failure _ _ _ h]
  by_cases hany : (st.catalog e).records.any (fun p => decide (p.secret = some s)) = true
  · rw [if_pos hany, if_pos hany]
  · rw [if_neg hany, if_neg hany]

/-- C1: for every event `E` and passphrase `P` of `E` usable at `now` (and
being the unique record carrying its secret and its id, the catalog
invariants of section 3), `authorize` with `P.secret` succeeds and the
resulting session holds the grant `(E, P.role)`; at a time at which no record
of `E` carrying that secret is usable, `authorize` fails with
`InvalidCredential`. -/
theorem c1_authorize_validity_window (st : State) (tok : Option Token) (e : EventId)
    (P : Passphrase) (s : String)
    (hmem : P ∈ (st.catalog e).records) (hsec : P.secret = some s)
    (hid : ∀ q ∈ (st.catalog e).records, q.id = P.id → q = P) :
    (∀ now, usableAt P now = true →
      (∀ q ∈ (st.catalog e).records, q.secret = some s → usableAt q now = true → q = P) →
      ∃ st' t' info, authorize st tok e s now = .ok (st', t', info) ∧
        P.role ∈ info ∧
        P.role ∈ reportedRoles (check_authorization st' (some t') e now)) ∧
    (∀ now, (∀ q ∈ (st.catalog e).records, q.secret = some s → usableAt q now = false) →
      ∃ reason, authorize st tok e s now = .error (.InvalidCredential reason)) := by
  constructor
  · intro now hus huniq
    have hmatch := matchSecret_matched_of_unique (st.catalog e).records P s now hmem hsec hus huniq
    have hrole : roleOfGrant st (e, P.id) now = some P.role :=
      roleOfGrant_eq_of_unique st e P now hmem hid hus
    have hmemFresh : P.role ∈ sessionRoles st ⟨[(e, P.id)]⟩ e now := by
      rw [mem_sessionRoles]
      exact ⟨(e, P.id), by simp, rfl, hrole⟩
    cases tok with
    | none =>
        refine ⟨_, _, _, authorize_fresh_ok st none e s now P hmatch rfl, hmemFresh, ?_⟩
        have hlook : lookupSession
            ((st.store.nextToken, (⟨[(e, P.id)]⟩ : Session)) :: st.store.sessions)
            st.store.nextToken = some ⟨[(e, P.id)]⟩ := by
          simp [lookupSession]
        simp only [check_authorization, SessionStore.get]
        rw [hlook]
        exact hmemFresh
    | some t =>
        cases hget : st.store.get t with
        | none =>
            refine ⟨_, _, _, authorize_fresh_ok st (some t) e s now P hmatch (by simp [hget]),
              hmemFresh, ?_⟩
            have hlook : lookupSession
                ((st.store.nextToken, (⟨[(e, P.id)]⟩ : Session)) :: st.store.sessions)
                st.store.nextToken = some ⟨[(e, P.id)]⟩ := by
              simp [lookupSession]
            simp only [check_authorization, SessionStore.get]
            rw [hlook]
            exact hmemFresh
        | some sess =>
            have hmemLive : P.role ∈ sessionRoles st ⟨insertGrant sess.grants (e, P.id)⟩ e now := by
              rw [mem_sessionRoles]
              refine ⟨(e, P.id), ?_, rfl, hrole⟩
              rw [mem_insertGrant]
              exact Or.inr rfl
            refine ⟨_, _, _, authorize_live_ok st t e s now P sess hmatch hget, hmemLive, ?_⟩
            have hsome : (lookupSession st.store.sessions t).isSome := by
              have : lookupSession st.store.sessions t = some sess := hget
              rw [this]; rfl
            have hlook := lookupSession_set_self st.store.sessions t
              ⟨insertGrant sess.grants (e, P.id)⟩ hsome
            simp only [check_authorization, SessionStore.get, SessionStore.set]
            rw [hlook]
            exact hmemLive
  · intro now hnone
    rw [authorize_no_usable st tok e s now hnone]
    by_cases hany : (st.catalog e).records.any (fun p => decide (p.secret = some s)) = true
    · rw [if_pos hany]; exact ⟨_, rfl⟩
    · rw [if_neg hany]; exact ⟨_, rfl⟩

/-- Concrete catalog for the C1 witness: event 1 holds the passphrase
"user"/participant, valid until time 5. -/
def c1P : Passphrase := ⟨1, some "user", .participant, none, none, none, some 5⟩

def c1st : State := ⟨[(1, ⟨[c1P], 2⟩)], ⟨[], 1⟩⟩

/-- Witness for C1 on a concrete catalog: authorizing with "user" at time 0
(inside the window) succeeds and grants participant; at time 10 (outside the
window) it fails with `InvalidCredential`. -/
theorem c1_authorize_validity_window_witness :
    (c1P ∈ (c1st.catalog 1).records ∧ c1P.secret = some "user" ∧ usableAt c1P 0 = true) ∧
    (∃ st' t' info, authorize c1st none 1 "user" 0 = .ok (st', t', info) ∧
      Role.participant ∈ info ∧
      Role.participant ∈ reportedRoles (check_authorization st' (some t') 1 0)) ∧
    (∃ reason, authorize c1st none 1 "user" 10 = .error (.InvalidCredential reason)) := by
  have h := c1_authorize_validity_window c1st none 1 c1P "user" (by decide) rfl (by decide)
  exact ⟨⟨by decide, rfl, by decide⟩, h.1 0 (by decide) (by decide), h.2 10 (by decide)⟩

/-- Concrete state for C2: event 1 has the single passphrase "user"
(participant), valid until time 5, so at time 10 it matches but is no longer
valid. -/
def c2st : State := ⟨[(1, ⟨[⟨1, some "user", .participant, none, none, none, some 5⟩], 2⟩)], ⟨[], 1⟩⟩

/-- C2 counterexample: at time 10 no passphrase of event 1 with secret "user"
is usable, and none with secret "nope" exists at all; both `authorize` calls
fail, but with observably different outcomes — the failure does surface the
distinction between "wrong secret" and "expired secret", exactly as the UI
tests demand ("Ungültige Passphrase." versus "nicht mehr (oder noch nicht)
gültig."). -/
theorem c2_uniform_failure_counterexample :
    matchSecret (c2st.catalog 1).records "user" 10 = .notCurrentlyValid ∧
    matchSecret (c2st.catalog 1).records "nope" 10 = .noMatch ∧
    authorize c2st none 1 "user" 10 = .error (.InvalidCredential .notCurrentlyValid) ∧
    authorize c2st none 1 "nope" 10 = .error (.InvalidCredential .unknownSecret) ∧
    authorize c2st none 1 "user" 10 ≠ authorize c2st none 1 "nope" 10 := by decide

/-- C2 (amended): when no passphrase of the event with the candidate secret
is usable at `now`, `authorize` fails with `InvalidCredential` in both cases,
but the failure carries a distinguishing reason: `notCurrentlyValid` when a
matching-but-expired/not-yet-valid record exists, `unknownSecret` when no
record carries the secret at all. -/
theorem c2_failure_reason_amended (st : State) (tok : Option Token) (e : EventId) (s : String)
    (now : Time)
    (h : ∀ q ∈ (st.catalog e).records, q.secret = some s → usableAt q now = false) :
    ((∃ q ∈ (st.catalog e).records, q.secret = some s) →
      authorize st tok e s now = .error (.InvalidCredential .notCurrentlyValid)) ∧
    ((∀ q ∈ (st.catalog e).records, q.secret ≠ some s) →
      authorize st tok e s now = .error (.InvalidCredential .unknownSecret)) := by
  constructor
  · rintro ⟨q, hq, hqs⟩
    rw [authorize_no_usable st tok e s now h, if_pos]
    rw [List.any_eq_true]
    exact ⟨q, hq, by simp [hqs]⟩
  · intro hall
    rw [authorize_no_usable st tok e s now h, if_neg]
    rw [List.any_eq_true]
    rintro ⟨q, hq, hqs⟩
    exact hall q hq (by simpa using hqs)

/-- Witness for the amended C2 on the concrete state: the expired secret
fails with the `notCurrentlyValid` reason, an unknown secret with
`unknownSecret`. -/
theorem c2_failure_reason_amended_witness :
    (∀ q ∈ (c2st.catalog 1).records, q.secret = some "user" → usableAt q 10 = false) ∧
    authorize c2st none 1 "user" 10 = .error (.InvalidCredential .notCurrentlyValid) ∧
    authorize c2st none 1 "wrong" 10 = .error (.InvalidCredential .unknownSecret) :=
  ⟨by decide,
   (c2_failure_reason_amended c2st none 1 "user" 10 (by decide)).1 (by decide),
   (c2_failure_reason_amended c2st none 1 "wrong" 10 (by decide)).2 (by decide)⟩

/-- Concrete state for C5: a session store with one live session (token 1,
holding a grant for event 2 only) and the single-passphrase catalog of
event 1; token 99 is bound to nothing. -/
def c5st : State :=
  ⟨[(1, ⟨[⟨1, some "user", .participant, none, none, none, none⟩], 2⟩)],
   ⟨[(1, ⟨[(2, 1)]⟩)], 2⟩⟩

/-- C5 counterexample: an invalid (unknown) token is not observably identical
to an absent one — `check_authorization` reports `InvalidSessionToken` for it
instead of the empty grant set, matching spec section 4.5/section 7 and
tests/ui/test_errors.py (test_session_error, "Der Session-Token ist
ungültig") and contradicting the claim's "empty grant set, never an error,
when the token is absent or invalid". -/
theorem c5_invalid_token_counterexample :
    check_authorization c5st none 1 0 = .ok [] ∧
    check_authorization c5st (some 99) 1 0 = .error .InvalidSessionToken ∧
    check_authorization c5st (some 99) 1 0 ≠ .ok [] ∧
    check_authorization c5st (some 99) 1 0 ≠ check_authorization c5st none 1 0 := by decide

/-- C5 (amended): `check_authorization` is a pure read; an absent token
yields the empty grant set, an authenticated session with no grants for the
event also yields the empty grant set (observably identical to no token),
but a token bound to no live session is reported as `InvalidSessionToken`,
distinguished from "no token supplied". -/
theorem c5_check_read_amended (st : State) (e : EventId) (now : Time) :
    check_authorization st none e now = .ok [] ∧
    (∀ t sess, st.store.get t = some sess → (∀ g ∈ sess.grants, g.1 ≠ e) →
      check_authorization st (some t) e now = .ok []) ∧
    (∀ t, st.store.get t = none →
      check_authorization st (some t) e now = .error .InvalidSessionToken) := by
  refine ⟨rfl, ?_, ?_⟩
  · intro t sess hget hng
    have hfil : sess.grants.filter (fun g => g.1 == e) = [] :=
      List.filter_eq_nil_iff.mpr (fun g hg => by simp [hng g hg])
    simp [check_authorization, hget, sessionRoles, hfil]
  · intro t hget
    simp [check_authorization, hget]

/-- Witness for the amended C5: on the concrete state, no token and a
roleless session for event 1 both yield the empty grant set, while unknown
token 99 is reported invalid. -/
theorem c5_check_read_amended_witness :
    c5st.store.get 1 = some ⟨[(2, 1)]⟩ ∧
    check_authorization c5st none 1 0 = .ok [] ∧
    check_authorization c5st (some 1) 1 0 = .ok [] ∧
    check_authorization c5st (some 99) 1 0 = .error .InvalidSessionToken :=
  ⟨by decide, (c5_check_read_amended c5st 1 0).1,
   (c5_check_read_amended c5st 1 0).2.1 1 ⟨[(2, 1)]⟩ (by decide) (by decide),
   (c5_check_read_amended c5st 1 0).2.2 99 (by decide)⟩

/-! Properties of the secret mask (claim C7). -/

theorem getLast?_drop_of_lt {α : Type} :
    ∀ (k : Nat) (l : List α), k < l.length → (l.drop k).getLast? = l.getLast? := by
  intro k l
  induction l generalizing k with
  | nil => intro h; simp at h
  | cons x xs ih =>
      intro h
      cases k with
      | zero => rfl
      | succ k' =>
          have hk : k' < xs.length := by simpa using h
          cases xs with
          | nil => simp at hk
          | cons y ys =>
              rw [List.drop_succ_cons, ih k' hk, List.getLast?_cons_cons]

theorem maskSecret_length (s : String) : (maskSecret s).length = s.length := by
  show (List.replicate (s.length - max 1 (s.length / 6)) '*' ++
    s.data.drop (s.length - max 1 (s.length / 6))).length = s.length
  rw [List.length_append, List.length_replicate, List.length_drop]
  have : s.data.length = s.length := rfl
  omega

theorem maskSecret_getLast (s : String) (h : 1 ≤ s.length) :
    (maskSecret s).data.getLast? = s.data.getLast? := by
  show (List.replicate (s.length - max 1 (s.length / 6)) '*' ++
    s.data.drop (s.length - max 1 (s.length / 6))).getLast? = s.data.getLast?
  have hlen : s.data.length = s.length := rfl
  have hlt : s.length - max 1 (s.length / 6) < s.data.length := by
    have h6 : s.length / 6 < s.length := Nat.div_lt_self (by omega) (by omega)
    omega
  rw [List.getLast?_append, getLast?_drop_of_lt _ _ hlt]
  have hne : s.data ≠ [] := by
    intro hc
    rw [hc] at hlen
    simp at hlen
    omega
  cases hg : s.data.getLast? with
  | none => exact absurd (List.getLast?_eq_none_iff.mp hg) hne
  | some y => rw [Option.or_some]

theorem maskSecret_head (s : String) (h : 2 ≤ s.length) :
    (maskSecret s).data.head? = some '*' := by
  show (List.replicate (s.length - max 1 (s.length / 6)) '*' ++
    s.data.drop (s.length - max 1 (s.length / 6))).head? = some '*'
  have hk : 1 ≤ s.length - max 1 (s.length / 6) := by
    have h6 : s.length / 6 < s.length := Nat.div_lt_self (by omega) (by omega)
    omega
  cases hrep : s.length - max 1 (s.length / 6) with
  | zero => omega
  | succ m => rw [List.replicate_succ]; rfl

theorem maskSecret_ne (s : String) (h : 2 ≤ s.length) (hhead : s.data.head? ≠ some '*') :
    maskSecret s ≠ s := by
  intro hc
  apply hhead
  rw [← congrArg String.data hc]
  exact maskSecret_head s h

/-- Concrete records for C7: the "user"/participant and "admin"/admin
passphrases of the test fixture. -/
def c7userRec : Passphrase := ⟨1, some "user", .participant, none, none, none, none⟩

def c7adminRec : Passphrase := ⟨3, some "admin", .admin, none, none, none, none⟩

/-- C7 counterexample: the mask of "user" is "***r", not the claimed
fixed-width "****r" (the CLI test pins the prompt to contain `'***r'`
exactly), the mask is length-preserving rather than fixed-width ("admin"
masks to the 5-character "****n"), and for the 25-character secret of the
API test the final four characters stay visible, not only the final one. -/
theorem c7_fixed_width_mask_counterexample :
    (format_for_listing c7userRec).secret = some "***r" ∧
    (format_for_listing c7userRec).secret ≠ some "****r" ∧
    (format_for_listing c7adminRec).secret = some "****n" ∧
    (maskSecret "user").length ≠ (maskSecret "admin").length ∧
    maskSecret "the-secret-new-passphrase" = "*********************rase" := by decide

/-- C7 (amended): `format_for_listing` displays `None` exactly when the
stored secret is absent; otherwise it displays a length-preserving mask that
keeps the final character of the secret visible, starts with an asterisk
(for secrets of length at least 2), and differs from the unmasked secret
whenever the secret does not itself start with an asterisk. -/
theorem c7_masking_amended (p : Passphrase) :
    ((format_for_listing p).secret = none ↔ p.secret = none) ∧
    (∀ s, p.secret = some s →
      (format_for_listing p).secret = some (maskSecret s) ∧
      (maskSecret s).length = s.length ∧
      (1 ≤ s.length → (maskSecret s).data.getLast? = s.data.getLast?) ∧
      (2 ≤ s.length → (maskSecret s).data.head? = some '*') ∧
      (2 ≤ s.length → s.data.head? ≠ some '*' → maskSecret s ≠ s)) := by
  constructor
  · cases hs : p.secret with
    | none => simp [format_for_listing, hs]
    | some s => simp [format_for_listing, hs]
  · intro s hs
    exact ⟨by simp [format_for_listing, hs], maskSecret_length s,
      fun h => maskSecret_getLast s h, fun h => maskSecret_head s h,
      fun h hh => maskSecret_ne s h hh⟩

/-- Witness for the amended C7 at the "user" record: displayed secret
"***r", length 4, last character 'r' visible, leading asterisk, and distinct
from "user". -/
theorem c7_masking_amended_witness :
    c7userRec.secret = some "user" ∧
    (format_for_listing c7userRec).secret = some (maskSecret "user") ∧
    (maskSecret "user").length = String.length "user" ∧
    (maskSecret "user").data.getLast? = (String.data "user").getLast? ∧
    (maskSecret "user").data.head? = some '*' ∧
    maskSecret "user" ≠ "user" := by
  have h := (c7_masking_amended c7userRec).2 "user" rfl
  exact ⟨rfl, h.1, h.2.1, h.2.2.1 (by decide), h.2.2.2.1 (by decide),
    h.2.2.2.2 (by decide) (by decide)⟩

/-! Properties of the derivation engine (claim C6). -/

theorem le_maxSecretLength (records : List Passphrase) (p : Passphrase) (s : String)
    (hp : p ∈ records) (hs : p.secret = some s) : s.length ≤ maxSecretLength records := by
  induction records with
  | nil => cases hp
  | cons x xs ih =>
      rcases List.mem_cons.mp hp with h | h
      · subst h
        show s.length ≤ max (match p.secret with | some s => s.length | none => 0) _
        rw [hs]
        exact le_max_of_le_left le_rfl
      · exact le_trans (ih h) (le_max_of_le_right le_rfl)

theorem freshSecret_length (cat : Catalog) :
    (freshSecret cat).length = maxSecretLength cat.records + 1 := by
  show (List.replicate (maxSecretLength cat.records + 1) 'x').length = _
  rw [List.length_replicate]

theorem freshSecret_ne_secret (cat : Catalog) (p : Passphrase) (hp : p ∈ cat.records) :
    some (freshSecret cat) ≠ p.secret := by
  cases hs : p.secret with
  | none => simp
  | some s =>
      intro hc
      have h1 : freshSecret cat = s := Option.some_injective _ hc
      have h2 : s.length ≤ maxSecretLength cat.records := le_maxSecretLength cat.records p s hp hs
      have h3 := freshSecret_length cat
      rw [h1] at h3
      omega

/-- C6: `derive` fails with `ParentNotUsable` when the parent id is missing
from the catalog or refers to a record not usable at `now`; fails with
`InvalidRoleDerivation` when the parent is usable but the requested role is
not the sharable counterpart of the parent's role; on success it yields a
record with `derivable_from_passphrase = parent_id`, `role = requested`, and
a present fresh secret that never equals the parent's secret. -/
theorem c6_derivation_rules (cat : Catalog) (parentId : PassphraseId) (requested : Role)
    (now : Time) :
    (cat.records.find? (fun p => p.id == parentId) = none →
      derive cat parentId requested now = .error .ParentNotUsable) ∧
    (∀ parent, cat.records.find? (fun p => p.id == parentId) = some parent →
      usableAt parent now = false →
      derive cat parentId requested now = .error .ParentNotUsable) ∧
    (∀ parent, cat.records.find? (fun p => p.id == parentId) = some parent →
      usableAt parent now = true → sharableCounterpart parent.role ≠ some requested →
      derive cat parentId requested now = .error .InvalidRoleDerivation) ∧
    (∀ parent, cat.records.find? (fun p => p.id == parentId) = some parent →
      usableAt parent now = true → sharableCounterpart parent.role = some requested →
      ∃ cat' rec, derive cat parentId requested now = .ok (cat', rec) ∧
        rec.derivable_from_passphrase = some parentId ∧
        rec.role = requested ∧
        rec.secret = some (freshSecret cat) ∧
        rec.secret ≠ parent.secret) := by
  refine ⟨?_, ?_, ?_, ?_⟩
  · intro hfind
    unfold derive
    rw [hfind]
  · intro parent hfind hus
    unfold derive
    rw [hfind]
    simp [hus]
  · intro parent hfind hus hrole
    unfold derive
    rw [hfind]
    simp [hus, hrole]
  · intro parent hfind hus hrole
    have hmem : parent ∈ cat.records := List.mem_of_find?_eq_some hfind
    have hok : derive cat parentId requested now =
        .ok (⟨cat.records ++ [⟨cat.nextId, some (freshSecret cat), requested, some parentId,
            none, none, none⟩], cat.nextId + 1⟩,
          ⟨cat.nextId, some (freshSecret cat), requested, some parentId, none, none, none⟩) := by
      unfold derive
      rw [hfind]
      simp [hus, hrole]
    exact ⟨_, _, hok, rfl, rfl, rfl, freshSecret_ne_secret cat parent hmem⟩

/-- Concrete catalog for the C6 witness: a usable participant parent (id 1)
and an expired orga record (id 2). -/
def c6cat : Catalog :=
  ⟨[⟨1, some "user", .participant, none, none, none, none⟩,
    ⟨2, some "orga", .orga, none, none, none, some 5⟩], 3⟩

/-- Witness for C6: deriving participant-sharable from the participant parent
succeeds with the required fields and a secret differing from the parent's;
requesting admin-sharable instead fails with `InvalidRoleDerivation`;
deriving from the expired parent fails with `ParentNotUsable`, as does
deriving from the missing id 9. -/
theorem c6_derivation_rules_witness :
    (c6cat.records.find? (fun p => p.id == 9) = none ∧
      derive c6cat 9 .participantSharable 10 = .error .ParentNotUsable) ∧
    (usableAt ⟨2, some "orga", .orga, none, none, none, some 5⟩ 10 = false ∧
      derive c6cat 2 .orgaSharable 10 = .error .ParentNotUsable) ∧
    (derive c6cat 1 .adminSharable 10 = .error .InvalidRoleDerivation) ∧
    (∃ cat' rec, derive c6cat 1 .participantSharable 10 = .ok (cat', rec) ∧
      rec.derivable_from_passphrase = some 1 ∧
      rec.role = .participantSharable ∧
      rec.secret = some (freshSecret c6cat) ∧
      rec.secret ≠ some "user") := by
  have h := c6_derivation_rules c6cat 1 .participantSharable 10
  have h9 := c6_derivation_rules c6cat 9 .participantSharable 10
  have h2 := c6_derivation_rules c6cat 2 .orgaSharable 10
  have ha := c6_derivation_rules c6cat 1 .adminSharable 10
  refine ⟨⟨by decide, h9.1 (by decide)⟩,
    ⟨by decide, h2.2.1 ⟨2, some "orga", .orga, none, none, none, some 5⟩ (by decide) (by decide)⟩,
    ha.2.2.1 ⟨1, some "user", .participant, none, none, none, none⟩ (by decide) (by decide)
      (by decide), ?_⟩
  obtain ⟨cat', rec, hok, hd, hr, hsec, hne⟩ :=
    h.2.2.2 ⟨1, some "user", .participant, none, none, none, none⟩ (by decide) (by decide) rfl
  exact ⟨cat', rec, hok, hd, hr, hsec, by rw [hsec]; decide⟩

/-! Duplicate-secret behavior of the catalog (claim C8). -/

/-- No two distinct positions of the record list hold secrets that collide
among records usable at `now`. -/
def noUsableDuplicates (records : List Passphrase) (now : Time) : Prop :=
  records.Pairwise (fun p q => ¬(usableAt p now = true ∧ usableAt q now = true ∧
    p.secret.isSome = true ∧ p.secret = q.secret))

/-- Caller data for the C8 scenario: secret "s", valid only from time 10. -/
def c8d1 : PassphraseData := ⟨some "s", .participant, none, none, some 10, none⟩

/-- Caller data for the C8 scenario: secret "s", unbounded validity. -/
def c8d2 : PassphraseData := ⟨some "s", .participant, none, none, none, none⟩

def c8p1 : Passphrase := ⟨1, some "s", .participant, none, none, some 10, none⟩

def c8p2 : Passphrase := ⟨2, some "s", .participant, none, none, none, none⟩

def c8cat1 : Catalog := ⟨[c8p1], 2⟩

def c8cat2 : Catalog := ⟨[c8p1, c8p2], 3⟩

/-- C8 counterexample: starting from the empty catalog, adding secret "s"
valid only from time 10 and then adding secret "s" unbounded — both at time
0 — succeeds twice (the duplicate check only sees *currently usable*
records, and the first record is not usable at time 0), so two adds with
identical secrets can both succeed, and the reachable catalog holds two
distinct records with the identical present secret that are both usable at
time 10. -/
theorem c8_usable_uniqueness_counterexample :
    catalogAdd ⟨[], 1⟩ c8d1 0 = .ok c8cat1 ∧
    catalogAdd c8cat1 c8d2 0 = .ok c8cat2 ∧
    c8p1 ∈ c8cat2.records ∧ c8p2 ∈ c8cat2.records ∧ c8p1.id ≠ c8p2.id ∧
    usableAt c8p1 10 = true ∧ usableAt c8p2 10 = true ∧
    c8p1.secret = c8p2.secret ∧ c8p1.secret.isSome = true := by decide

/-- C8 (amended): `add` fails with `DuplicateSecret` exactly when another
record usable at the add's instant carries an identical present secret;
consequently a successful add preserves "no two records usable at that
instant share a present secret", and of two serialized adds with identical
present secrets whose records are usable at the instant of insertion, the
second fails with `DuplicateSecret`; but records whose validity windows
exclude the instant of the add escape the check, so the uniqueness invariant
does not hold at *every* instant in every reachable state. -/
theorem c8_duplicate_secret_amended (cat : Catalog) (d d2 : PassphraseData) (now : Time) :
    ((∃ q ∈ cat.records, usableAt q now = true ∧ q.secret = d.secret) →
      d.secret.isSome = true → catalogAdd cat d now = .error .DuplicateSecret) ∧
    (∀ cat', catalogAdd cat d now = .ok cat' →
      noUsableDuplicates cat.records now → noUsableDuplicates cat'.records now) ∧
    (∀ cat', catalogAdd cat d now = .ok cat' → d.secret.isSome = true →
      usableAt (d.toRecord cat.nextId) now = true → d2.secret = d.secret →
      catalogAdd cat' d2 now = .error .DuplicateSecret) := by
  have hdup : ∀ q ∈ cat.records, usableAt q now = true → q.secret = d.secret →
      d.secret.isSome = true → hasUsableDuplicate cat.records d.secret now = true := by
    intro q hq hus hsec hsome
    rw [hasUsableDuplicate, List.any_eq_true]
    exact ⟨q, hq, by simp [hus, hsec, hsome]⟩
  refine ⟨?_, ?_, ?_⟩
  · rintro ⟨q, hq, hus, hsec⟩ hsome
    rw [catalogAdd, if_pos (hdup q hq hus hsec hsome)]
  · intro cat' hok hnud
    rw [catalogAdd] at hok
    by_cases hd : hasUsableDuplicate cat.records d.secret now = true
    · rw [if_pos hd] at hok; cases hok
    · rw [if_neg hd] at hok
      have hrec : cat'.records = cat.records ++ [d.toRecord cat.nextId] := by
        cases hok; rfl
      rw [hrec, noUsableDuplicates, List.pairwise_append]
      refine ⟨hnud, List.pairwise_singleton _ _, ?_⟩
      rintro a ha b hb ⟨haus, hbus, hasome, habsec⟩
      rw [List.mem_singleton] at hb
      subst hb
      apply hd
      rw [hasUsableDuplicate, List.any_eq_true]
      refine ⟨a, ha, ?_⟩
      have hsec : a.secret = d.secret := habsec
      simp [haus, hsec]
      rw [← hsec]
      simpa using hasome
  · intro cat' hok hsome hus hsec
    rw [catalogAdd] at hok
    by_cases hd : hasUsableDuplicate cat.records d.secret now = true
    · rw [if_pos hd] at hok; cases hok
    · rw [if_neg hd] at hok
      have hrec : cat'.records = cat.records ++ [d.toRecord cat.nextId] := by
        cases hok; rfl
      rw [catalogAdd, if_pos]
      rw [hasUsableDuplicate, List.any_eq_true]
      refine ⟨d.toRecord cat.nextId, ?_, ?_⟩
      · rw [hrec]; exact List.mem_append_right _ (List.mem_singleton_self _)
      · have h1 : (d.toRecord cat.nextId).secret = d2.secret := hsec.symm
        simp [hus, h1, hsec]
        simpa [hsec] using hsome

/-- Witness for the amended C8: on a catalog with the unbounded usable
secret "s", a second add of "s" at time 0 fails with `DuplicateSecret`; and
starting from the empty catalog, adding usable "s" and then "s" again at the
same instant succeeds once and fails the second time. -/
theorem c8_duplicate_secret_amended_witness :
    (c8p2 ∈ (⟨[c8p2], 3⟩ : Catalog).records ∧ usableAt c8p2 0 = true) ∧
    catalogAdd ⟨[c8p2], 3⟩ c8d2 0 = .error .DuplicateSecret ∧
    (∀ cat₁, catalogAdd ⟨[], 1⟩ c8d2 0 = .ok cat₁ →
      catalogAdd cat₁ c8d2 0 = .error .DuplicateSecret) :=
  ⟨⟨by decide, by decide⟩,
   (c8_duplicate_secret_amended ⟨[c8p2], 3⟩ c8d2 c8d2 0).1 ⟨c8p2, by decide, by decide, rfl⟩ rfl,
   fun cat₁ h₁ =>
     (c8_duplicate_secret_amended ⟨[], 1⟩ c8d2 c8d2 0).2.2 cat₁ h₁ rfl (by decide) rfl⟩

/-! Grant accumulation across successive authorizations (claims C9, C10). -/

/-- The grants of the session a token identifies ([] when no live session is
identified). -/
def grantsOfTok (st : State) (tok : Option Token) : List (EventId × PassphraseId) :=
  match tok with
  | none => []
  | some t =>
      match st.store.get t with
      | none => []
      | some sess => sess.grants

theorem catalog_eq_of_catalogs_eq {st st' : State} (h : st'.catalogs = st.catalogs)
    (e : EventId) : st'.catalog e = st.catalog e := by
  unfold State.catalog
  rw [h]

theorem roleOfGrant_congr {st st' : State} (h : st'.catalogs = st.catalogs)
    (g : EventId × PassphraseId) (now : Time) : roleOfGrant st' g now = roleOfGrant st g now := by
  unfold roleOfGrant
  rw [catalog_eq_of_catalogs_eq h]

/-- A successful `authorize` identifies (or mints) a session whose grants are
exactly the previous grants plus the matched passphrase's grant, leaves the
catalogs unchanged, and reports that session's current roles for the
event. -/
theorem authorize_adds_grant (st : State) (tok : Option Token) (e : EventId) (s : String)
    (now : Time) (P : Passphrase)
    (hmatch : matchSecret (st.catalog e).records s now = .matched P) :
    ∃ st' t' sess', authorize st tok e s now = .ok (st', t', sessionRoles st' sess' e now) ∧
      st'.store.get t' = some sess' ∧ st'.catalogs = st.catalogs ∧
      (∀ g, g ∈ sess'.grants ↔ g ∈ grantsOfTok st tok ∨ g = (e, P.id)) := by
  cases tok with
  | none =>
      refine ⟨_, _, ⟨[(e, P.id)]⟩, authorize_fresh_ok st none e s now P hmatch rfl, ?_, rfl, ?_⟩
      · show lookupSession _ _ = _
        simp [lookupSession]
      · intro g
        simp [grantsOfTok]
  | some t =>
      cases hget : st.store.get t with
      | none =>
          refine ⟨_, _, ⟨[(e, P.id)]⟩,
            authorize_fresh_ok st (some t) e s now P hmatch (by simp [hget]), ?_, rfl, ?_⟩
          · show lookupSession _ _ = _
            simp [lookupSession]
          · intro g
            simp [grantsOfTok, hget]
      | some sess =>
          refine ⟨_, _, ⟨insertGrant sess.grants (e, P.id)⟩,
            authorize_live_ok st t e s now P sess hmatch hget, ?_, rfl, ?_⟩
          · have hsome : (lookupSession st.store.sessions t).isSome := by
              have : lookupSession st.store.sessions t = some sess := hget
              rw [this]; rfl
            exact lookupSession_set_self st.store.sessions t _ hsome
          · intro g
            rw [mem_insertGrant]
            simp [grantsOfTok, hget]

/-- C9: authorizing on the same session first with a passphrase of role
`orga` and then with one of role `participant` for the same event yields an
`AuthorizationInfo` containing both roles — successive successful
authorizations accumulate grants. -/
theorem c9_accumulation (st : State) (tok : Option Token) (e : EventId) (A B : Passphrase)
    (sA sB : String) (now : Time)
    (hAmem : A ∈ (st.catalog e).records) (hAsec : A.secret = some sA)
    (hAid : ∀ q ∈ (st.catalog e).records, q.id = A.id → q = A)
    (hAus : usableAt A now = true)
    (hAuniq : ∀ q ∈ (st.catalog e).records, q.secret = some sA → usableAt q now = true → q = A)
    (hArole : A.role = .orga)
    (hBmem : B ∈ (st.catalog e).records) (hBsec : B.secret = some sB)
    (hBid : ∀ q ∈ (st.catalog e).records, q.id = B.id → q = B)
    (hBus : usableAt B now = true)
    (hBuniq : ∀ q ∈ (st.catalog e).records, q.secret = some sB → usableAt q now = true → q = B) :
    (hBrole : B.role = .participant) →
    ∃ st₁ t₁ info₁ st₂ t₂ info₂,
      authorize st tok e sA now = .ok (st₁, t₁, info₁) ∧
      authorize st₁ (some t₁) e sB now = .ok (st₂, t₂, info₂) ∧
      Role.orga ∈ info₂ ∧ Role.participant ∈ info₂ := by
  intro hBrole
  have hmA := matchSecret_matched_of_unique (st.catalog e).records A sA now hAmem hAsec hAus hAuniq
  obtain ⟨st₁, t₁, sess₁, h1ok, h1get, h1cat, h1g⟩ := authorize_adds_grant st tok e sA now A hmA
  have hcat1 := catalog_eq_of_catalogs_eq h1cat e
  have hmB : matchSecret (st₁.catalog e).records sB now = .matched B := by
    rw [hcat1]
    exact matchSecret_matched_of_unique (st.catalog e).records B sB now hBmem hBsec hBus hBuniq
  obtain ⟨st₂, t₂, sess₂, h2ok, h2get, h2cat, h2g⟩ :=
    authorize_adds_grant st₁ (some t₁) e sB now B hmB
  have hcat2 : st₂.catalog e = st.catalog e := by
    rw [catalog_eq_of_catalogs_eq h2cat e, hcat1]
  have hgrants1 : grantsOfTok st₁ (some t₁) = sess₁.grants := by
    simp [grantsOfTok, h1get]
  have hAin : (e, A.id) ∈ sess₂.grants := by
    rw [h2g, hgrants1]
    exact Or.inl ((h1g (e, A.id)).mpr (Or.inr rfl))
  have hBin : (e, B.id) ∈ sess₂.grants := (h2g (e, B.id)).mpr (Or.inr rfl)
  have hArg : roleOfGrant st₂ (e, A.id) now = some A.role := by
    apply roleOfGrant_eq_of_unique st₂ e A now
    · rw [hcat2]; exact hAmem
    · rw [hcat2]; exact hAid
    · exact hAus
  have hBrg : roleOfGrant st₂ (e, B.id) now = some B.role := by
    apply roleOfGrant_eq_of_unique st₂ e B now
    · rw [hcat2]; exact hBmem
    · rw [hcat2]; exact hBid
    · exact hBus
  refine ⟨st₁, t₁, _, st₂, t₂, _, h1ok, h2ok, ?_, ?_⟩
  · rw [mem_sessionRoles]
    exact ⟨(e, A.id), hAin, rfl, by rw [hArg, hArole]⟩
  · rw [mem_sessionRoles]
    exact ⟨(e, B.id), hBin, rfl, by rw [hBrg, hBrole]⟩

/-- Concrete catalog for the C9/C10 witnesses: event 1 with "user" /
participant (id 1), "orga" / orga (id 2) and "person" / participant
(id 3). -/
def c9st : State :=
  ⟨[(1, ⟨[⟨1, some "user", .participant, none, none, none, none⟩,
          ⟨2, some "orga", .orga, none, none, none, none⟩,
          ⟨3, some "person", .participant, none, none, none, none⟩], 4⟩)],
   ⟨[], 1⟩⟩

/-- Witness for C9 on the concrete catalog: login with "orga" then "user"
yields an authorization containing both orga and participant. -/
theorem c9_accumulation_witness :
    (usableAt ⟨2, some "orga", .orga, none, none, none, none⟩ 0 = true) ∧
    ∃ st₁ t₁ info₁ st₂ t₂ info₂,
      authorize c9st none 1 "orga" 0 = .ok (st₁, t₁, info₁) ∧
      authorize st₁ (some t₁) 1 "user" 0 = .ok (st₂, t₂, info₂) ∧
      Role.orga ∈ info₂ ∧ Role.participant ∈ info₂ :=
  ⟨by decide,
   c9_accumulation c9st none 1
     ⟨2, some "orga", .orga, none, none, none, none⟩
     ⟨1, some "user", .participant, none, none, none, none⟩ "orga" "user" 0
     (by decide) rfl (by decide) (by decide) (by decide) rfl
     (by decide) rfl (by decide) (by decide) (by decide) rfl⟩

/-- C10: two successive successful authorizations on the same session with
passphrases carrying the same role for the same event leave the reported
grant set unchanged in content and free of duplicate entries. -/
theorem c10_same_role_idempotent (st : State) (tok : Option Token) (e : EventId)
    (A B : Passphrase) (sA sB : String) (now : Time)
    (hAmem : A ∈ (st.catalog e).records) (hAsec : A.secret = some sA)
    (hAid : ∀ q ∈ (st.catalog e).records, q.id = A.id → q = A)
    (hAus : usableAt A now = true)
    (hAuniq : ∀ q ∈ (st.catalog e).records, q.secret = some sA → usableAt q now = true → q = A)
    (hBmem : B ∈ (st.catalog e).records) (hBsec : B.secret = some sB)
    (hBid : ∀ q ∈ (st.catalog e).records, q.id = B.id → q = B)
    (hBus : usableAt B now = true)
    (hBuniq : ∀ q ∈ (st.catalog e).records, q.secret = some sB → usableAt q now = true → q = B) :
    (hrole : B.role = A.role) →
    ∃ st₁ t₁ info₁ st₂ t₂ info₂,
      authorize st tok e sA now = .ok (st₁, t₁, info₁) ∧
      authorize st₁ (some t₁) e sB now = .ok (st₂, t₂, info₂) ∧
      (∀ r, r ∈ info₂ ↔ r ∈ info₁) ∧ info₂.Nodup ∧ info₁.Nodup := by
  intro hrole
  have hmA := matchSecret_matched_of_unique (st.catalog e).records A sA now hAmem hAsec hAus hAuniq
  obtain ⟨st₁, t₁, sess₁, h1ok, h1get, h1cat, h1g⟩ := authorize_adds_grant st tok e sA now A hmA
  have hcat1 := catalog_eq_of_catalogs_eq h1cat e
  have hmB : matchSecret (st₁.catalog e).records sB now = .matched B := by
    rw [hcat1]
    exact matchSecret_matched_of_unique (st.catalog e).records B sB now hBmem hBsec hBus hBuniq
  obtain ⟨st₂, t₂, sess₂, h2ok, h2get, h2cat, h2g⟩ :=
    authorize_adds_grant st₁ (some t₁) e sB now B hmB
  have hcat2 : st₂.catalog e = st.catalog e := by
    rw [catalog_eq_of_catalogs_eq h2cat e, hcat1]
  have hgrants1 : grantsOfTok st₁ (some t₁) = sess₁.grants := by
    simp [grantsOfTok, h1get]
  have hrg : ∀ g now', roleOfGrant st₂ g now' = roleOfGrant st₁ g now' := by
    intro g now'
    rw [roleOfGrant_congr h2cat]
  have hAin1 : (e, A.id) ∈ sess₁.grants := (h1g (e, A.id)).mpr (Or.inr rfl)
  have hArg1 : roleOfGrant st₁ (e, A.id) now = some A.role := by
    apply roleOfGrant_eq_of_unique st₁ e A now
    · rw [hcat1]; exact hAmem
    · rw [hcat1]; exact hAid
    · exact hAus
  have hBrg1 : roleOfGrant st₁ (e, B.id) now = some B.role := by
    apply roleOfGrant_eq_of_unique st₁ e B now
    · rw [hcat1]; exact hBmem
    · rw [hcat1]; exact hBid
    · exact hBus
  refine ⟨st₁, t₁, _, st₂, t₂, _, h1ok, h2ok, ?_, ?_, ?_⟩
  · intro r
    rw [mem_sessionRoles, mem_sessionRoles]
    constructor
    · rintro ⟨g, hg, hge, hgr⟩
      rw [h2g, hgrants1] at hg
      rcases hg with hg | hg
      · exact ⟨g, hg, hge, by rw [← hrg g now]; exact hgr⟩
      · subst hg
        rw [hrg _ now, hBrg1] at hgr
        refine ⟨(e, A.id), hAin1, rfl, ?_⟩
        rw [hArg1, ← hrole]
        exact hgr
    · rintro ⟨g, hg, hge, hgr⟩
      refine ⟨g, ?_, hge, by rw [hrg g now]; exact hgr⟩
      rw [h2g, hgrants1]
      exact Or.inl hg
  · show (List.dedup _).Nodup
    exact List.nodup_dedup _
  · show (List.dedup _).Nodup
    exact List.nodup_dedup _

/-- Witness for C10 on the concrete catalog: login with "user" then with the
second participant passphrase "person" reports a grant set equal in content
and without duplicates. -/
theorem c10_same_role_idempotent_witness :
    (Passphrase.role ⟨3, some "person", .participant, none, none, none, none⟩ =
      Passphrase.role ⟨1, some "user", .participant, none, none, none, none⟩) ∧
    ∃ st₁ t₁ info₁ st₂ t₂ info₂,
      authorize c9st none 1 "user" 0 = .ok (st₁, t₁, info₁) ∧
      authorize st₁ (some t₁) 1 "person" 0 = .ok (st₂, t₂, info₂) ∧
      (∀ r, r ∈ info₂ ↔ r ∈ info₁) ∧ info₂.Nodup ∧ info₁.Nodup :=
  ⟨rfl,
   c10_same_role_idempotent c9st none 1
     ⟨1, some "user", .participant, none, none, none, none⟩
     ⟨3, some "person", .participant, none, none, none, none⟩ "user" "person" 0
     (by decide) rfl (by decide) (by decide) (by decide)
     (by decide) rfl (by decide) (by decide) (by decide) rfl⟩

/-! Revocation of a backing passphrase revokes session access (claim C4). -/

theorem store_setCatalog (st : State) (e : EventId) (cat : Catalog) :
    (st.setCatalog e cat).store = st.store := by
  unfold State.setCatalog
  split <;> rfl

theorem usableAt_invalidated (p : Passphrase) (now now' : Time) (h : now < now') :
    usableAt { p with valid_until := some now } now' = false := by
  unfold usableAt
  have : decide (now' ≤ now) = false := decide_eq_false (Int.not_le.mpr h)
  simp [this]

/-- C4: for a live session all of whose grants for event `e` are backed by
passphrase `pid`, hard-deleting `pid` denies every later access check of
that session in `e`, and invalidating `pid` at time `now` denies every
access check strictly after `now` — although the grant was added before the
revocation, authorization is effective only while a usable backing
passphrase exists. -/
theorem c4_revocation_revokes_session (st : State) (tok : Token) (sess : Session)
    (e : EventId) (pid : PassphraseId) (now : Time)
    (hget : st.store.get tok = some sess)
    (hback : ∀ g ∈ sess.grants, g.1 = e → g.2 = pid) :
    (∀ cat', catalogRemove (st.catalog e) pid = .ok cat' →
      ∀ now', check_authorization (st.setCatalog e cat') (some tok) e now' = .ok []) ∧
    (∀ cat', catalogInvalidate (st.catalog e) pid now = .ok cat' →
      ∀ now', now < now' →
        check_authorization (st.setCatalog e cat') (some tok) e now' = .ok []) := by
  have main : ∀ cat' now', (∀ p ∈ cat'.records, p.id = pid → usableAt p now' = false) →
      check_authorization (st.setCatalog e cat') (some tok) e now' = .ok [] := by
    intro cat' now' hdead
    have hst : (st.setCatalog e cat').store.get tok = some sess := by
      rw [store_setCatalog]
      exact hget
    simp only [check_authorization, hst]
    have hempty : sessionRoles (st.setCatalog e cat') sess e now' = [] := by
      unfold sessionRoles
      have hfm : (sess.grants.filter (fun g => g.1 == e)).filterMap
          (fun g => roleOfGrant (st.setCatalog e cat') g now') = [] := by
        rw [List.filterMap_eq_nil_iff]
        intro g hgf
        have hg := List.mem_filter.mp hgf
        have hge : g.1 = e := by simpa using hg.2
        have hgp : g.2 = pid := hback g hg.1 hge
        apply roleOfGrant_eq_none
        rw [hge, catalog_setCatalog_self]
        intro p hp hid
        exact hdead p hp (hid.trans hgp)
      rw [hfm]
      rfl
    rw [hempty]
  constructor
  · intro cat' hok now'
    rw [catalogRemove] at hok
    by_cases hany : (st.catalog e).records.any (fun p => p.id == pid) = true
    · rw [if_pos hany] at hok
      have hrec : cat'.records = (st.catalog e).records.filter (fun p => p.id != pid) := by
        cases hok; rfl
      apply main
      intro p hp hid
      rw [hrec] at hp
      have := (List.mem_filter.mp hp).2
      rw [hid] at this
      simp at this
    · rw [if_neg hany] at hok
      cases hok
  · intro cat' hok now' hlt
    rw [catalogInvalidate] at hok
    by_cases hany : (st.catalog e).records.any (fun p => p.id == pid) = true
    · rw [if_pos hany] at hok
      have hrec : cat'.records = (st.catalog e).records.map
          (fun p => if p.id == pid then { p with valid_until := some now } else p) := by
        cases hok; rfl
      apply main
      intro p hp hid
      rw [hrec] at hp
      obtain ⟨q, hq, hqp⟩ := List.mem_map.mp hp
      by_cases hqid : q.id = pid
      · rw [if_pos (by simpa using hqid)] at hqp
        rw [← hqp]
        exact usableAt_invalidated q now now' hlt
      · rw [if_neg (by simpa using hqid)] at hqp
        rw [← hqp] at hid
        exact absurd hid hqid
    · rw [if_neg hany] at hok
      cases hok

/-- Concrete state for the C4 witness: a session (token 1) whose only grant
for event 1 is backed by passphrase 1 ("user"). -/
def c4st : State :=
  ⟨[(1, ⟨[⟨1, some "user", .participant, none, none, none, none⟩], 2⟩)],
   ⟨[(1, ⟨[(1, 1)]⟩)], 2⟩⟩

/-- Witness for C4: after hard-deleting passphrase 1, or invalidating it at
time 5, the session that logged in with it is denied (empty grant set) at a
later time. -/
theorem c4_revocation_revokes_session_witness :
    c4st.store.get 1 = some ⟨[(1, 1)]⟩ ∧
    (∀ cat', catalogRemove (c4st.catalog 1) 1 = .ok cat' →
      check_authorization (c4st.setCatalog 1 cat') (some 1) 1 99 = .ok []) ∧
    (∀ cat', catalogInvalidate (c4st.catalog 1) 1 5 = .ok cat' →
      check_authorization (c4st.setCatalog 1 cat') (some 1) 1 6 = .ok []) :=
  ⟨by decide,
   fun cat' h =>
     (c4_revocation_revokes_session c4st 1 ⟨[(1, 1)]⟩ 1 1 5 (by decide) (by decide)).1 cat' h 99,
   fun cat' h =>
     (c4_revocation_revokes_session c4st 1 ⟨[(1, 1)]⟩ 1 1 5 (by decide) (by decide)).2 cat' h 6
       (by decide)⟩

/-! Operational model for the temporal part of claim C3: the public
operations of the core as a step function on the whole state. -/

/-- Modelled from the spec: one invocation of a public mutating operation of
the core (sections 4.1, 4.3, 4.5, 4.6). -/
inductive Op
  | opAuthorize (tok : Option Token) (e : EventId) (candidate : String) (now : Time)
  | opDropRole (tok : Token) (e : EventId) (r : Role) (now : Time)
  | opDropAll (tok : Token)
  | opCatalogAdd (e : EventId) (d : PassphraseData) (now : Time)
  | opCatalogRemove (e : EventId) (pid : PassphraseId)
  | opCatalogInvalidate (e : EventId) (pid : PassphraseId) (now : Time)
  | opDerive (e : EventId) (parentId : PassphraseId) (r : Role) (now : Time)
deriving DecidableEq, Repr

/-- Apply one operation; a failing operation leaves the state unchanged. -/
def applyOp (st : State) (op : Op) : State :=
  match op with
  | .opAuthorize tok e c now =>
      match authorize st tok e c now with
      | .ok res => res.1
      | .error _ => st
  | .opDropRole tok e r now =>
      match drop_access_role st tok e r now with
      | .ok res => res.1
      | .error _ => st
  | .opDropAll tok => { st with store := st.store.remove tok }
  | .opCatalogAdd e d now =>
      match catalogAdd (st.catalog e) d now with
      | .ok cat' => st.setCatalog e cat'
      | .error _ => st
  | .opCatalogRemove e pid =>
      match catalogRemove (st.catalog e) pid with
      | .ok cat' => st.setCatalog e cat'
      | .error _ => st
  | .opCatalogInvalidate e pid now =>
      match catalogInvalidate (st.catalog e) pid now with
      | .ok cat' => st.setCatalog e cat'
      | .error _ => st
  | .opDerive e parentId r now =>
      match derive (st.catalog e) parentId r now with
      | .ok res => st.setCatalog e res.1
      | .error _ => st

/-- Run a sequence of operations. -/
def runOps (st : State) (ops : List Op) : State :=
  ops.foldl applyOp st

/-- Whether, taken in the given state, an operation is an `authorize`
carrying the given token for the given event whose candidate secret matches
a currently usable passphrase of the given role — the only kind of step that
can put a role-`r` grant for that event back into that token's session
(re-authorizing with a passphrase of a *different* role is harmless, since
record roles are immutable and ids are never reused). -/
def opGrantsRole (st : State) (op : Op) (t : Token) (e : EventId) (r : Role) : Prop :=
  ∃ s now P, op = Op.opAuthorize (some t) e s now ∧
    matchSecret (st.catalog e).records s now = .matched P ∧ P.role = r

/-- A run avoids re-granting role `r` of event `e` to token `t`: no step
along the trajectory is a successful role-`r` authorization carrying `t` for
`e`. -/
def avoidsRoleAuth (t : Token) (e : EventId) (r : Role) : State → List Op → Prop
  | _, [] => True
  | st, op :: ops => ¬ opGrantsRole st op t e r ∧ avoidsRoleAuth t e r (applyOp st op) ops

/-- No two records of the event's catalog share an id. -/
def UniqueIdsAt (st : State) (e : EventId) : Prop :=
  ∀ p ∈ (st.catalog e).records, ∀ q ∈ (st.catalog e).records, p.id = q.id → p = q

theorem matchSecret_matched_mem (records : List Passphrase) (s : String) (now : Time)
    (P : Passphrase) (h : matchSecret records s now = .matched P) : P ∈ records := by
  unfold matchSecret at h
  cases hf : records.find? (fun p => decide (p.secret = some s) && usableAt p now) with
  | none =>
      rw [hf] at h
      by_cases ha : records.any (fun p => decide (p.secret = some s)) = true
      · rw [if_pos ha] at h
        cases h
      · rw [if_neg ha] at h
        cases h
  | some q =>
      rw [hf] at h
      injection h with h1
      rw [← h1]
      exact List.mem_of_find?_eq_some hf

/-- All live tokens are below the minting counter. -/
def TokensBelow (st : State) : Prop :=
  ∀ ts ∈ st.store.sessions, ts.1 < st.store.nextToken

/-- All record ids of a catalog are below its id counter. -/
def catFresh (cat : Catalog) : Prop :=
  ∀ p ∈ cat.records, p.id < cat.nextId

/-- Every event's catalog has all record ids below its id counter. -/
def CatalogsFresh (st : State) : Prop :=
  ∀ ec ∈ st.catalogs, catFresh ec.2

/-- A grant is safe with respect to dropped role `r` of event `e`: if it
belongs to `e`, its backing id is below the event's id counter and no record
with that id carries role `r`. -/
def grantSafe (st : State) (e : EventId) (r : Role) (g : EventId × PassphraseId) : Prop :=
  g.1 = e →
    g.2 < (st.catalog e).nextId ∧ ∀ p ∈ (st.catalog e).records, p.id = g.2 → p.role ≠ r

/-- The induction invariant for C3's temporal property: counters bound the
live tokens and record ids, the rotated-in token is below the counter, the
event's record ids are unique, and whenever that token is live none of its
event-`e` grants can resolve to role `r`. -/
def C3Inv (t' : Token) (e : EventId) (r : Role) (st : State) : Prop :=
  TokensBelow st ∧ t' < st.store.nextToken ∧ CatalogsFresh st ∧ UniqueIdsAt st e ∧
  ∀ sess, st.store.get t' = some sess → ∀ g ∈ sess.grants, grantSafe st e r g

theorem lookupCatalog_eq_some_mem (l : List (EventId × Catalog)) (e : EventId) (cat : Catalog)
    (h : lookupCatalog l e = some cat) : (e, cat) ∈ l := by
  induction l with
  | nil => cases h
  | cons x xs ih =>
      obtain ⟨x1, x2⟩ := x
      rw [lookupCatalog] at h
      by_cases hx : x1 = e
      · rw [if_pos (by simpa using hx)] at h
        injection h with h2
        subst hx
        subst h2
        exact List.mem_cons_self _ _
      · rw [if_neg (by simpa using hx)] at h
        exact List.mem_cons_of_mem _ (ih h)

theorem catFresh_catalog {st : State} (h : CatalogsFresh st) (e : EventId) :
    catFresh (st.catalog e) := by
  unfold State.catalog
  cases hl : lookupCatalog st.catalogs e with
  | none =>
      intro p hp
      cases hp
  | some cat =>
      exact h (e, cat) (lookupCatalog_eq_some_mem st.catalogs e cat hl)

theorem lookupSession_some_mem (l : List (Token × Session)) (t : Token) (sess : Session)
    (h : lookupSession l t = some sess) : (t, sess) ∈ l := by
  induction l with
  | nil => cases h
  | cons x xs ih =>
      obtain ⟨x1, x2⟩ := x
      rw [lookupSession] at h
      by_cases hx : x1 = t
      · rw [if_pos (by simpa using hx)] at h
        injection h with h2
        subst hx
        subst h2
        exact List.mem_cons_self _ _
      · rw [if_neg (by simpa using hx)] at h
        exact List.mem_cons_of_mem _ (ih h)

theorem authorize_ok_state (st : State) (tok : Option Token) (e : EventId) (s : String)
    (now : Time) (res : State × Token × List Role)
    (h : authorize st tok e s now = .ok res) :
    ∃ P, matchSecret (st.catalog e).records s now = .matched P ∧
      ((∃ t sess, tok = some t ∧ st.store.get t = some sess ∧
          res.1 = { st with store := st.store.set t ⟨insertGrant sess.grants (e, P.id)⟩ } ∧
          res.2.1 = t) ∨
        (res.1 = { st with store := ⟨(st.store.nextToken, ⟨[(e, P.id)]⟩) :: st.store.sessions,
            st.store.nextToken + 1⟩ } ∧ res.2.1 = st.store.nextToken)) := by
  cases hm : matchSecret (st.catalog e).records s now with
  | noMatch =>
      have hq : authorize st tok e s now = .error (.InvalidCredential .unknownSecret) := by
        unfold authorize
        rw [hm]
      rw [hq] at h
      cases h
  | notCurrentlyValid =>
      have hq : authorize st tok e s now = .error (.InvalidCredential .notCurrentlyValid) := by
        unfold authorize
        rw [hm]
      rw [hq] at h
      cases h
  | matched P =>
      refine ⟨P, rfl, ?_⟩
      cases tok with
      | none =>
          right
          have hq := authorize_fresh_ok st none e s now P hm rfl
          rw [hq] at h
          injection h with h1
          rw [← h1]
          exact ⟨rfl, rfl⟩
      | some t =>
          cases hg : st.store.get t with
          | none =>
              right
              have hq := authorize_fresh_ok st (some t) e s now P hm (by simp [hg])
              rw [hq] at h
              injection h with h1
              rw [← h1]
              exact ⟨rfl, rfl⟩
          | some sess =>
              left
              have hq := authorize_live_ok st t e s now P sess hm hg
              rw [hq] at h
              injection h with h1
              rw [← h1]
              exact ⟨t, sess, rfl, hg, rfl, rfl⟩

theorem drop_ok_state (st : State) (tok : Token) (e : EventId) (r : Role) (now : Time)
    (res : State × Token × List Role)
    (h : drop_access_role st tok e r now = .ok res) :
    ∃ sess, st.store.get tok = some sess ∧
      sess.grants.any (grantBacksRole st e r) = true ∧
      res.1 = { st with store := ⟨(st.store.nextToken,
          (⟨sess.grants.filter (fun g => !(grantBacksRole st e r g))⟩ : Session)) ::
          (st.store.remove tok).sessions, st.store.nextToken + 1⟩ } ∧
      res.2.1 = st.store.nextToken ∧
      res.2.2 = sessionRoles st ⟨sess.grants.filter (fun g => !(grantBacksRole st e r g))⟩ e now := by
  unfold drop_access_role at h
  cases hg : st.store.get tok with
  | none => rw [hg] at h; cases h
  | some sess =>
      simp only [hg] at h
      by_cases hh : sess.grants.any (grantBacksRole st e r) = true
      · rw [if_pos hh] at h
        injection h with h1
        exact ⟨sess, rfl, hh, by rw [← h1], by rw [← h1], by rw [← h1]⟩
      · rw [if_neg hh] at h
        cases h

theorem catalogAdd_ok_state (cat : Catalog) (d : PassphraseData) (now : Time) (cat' : Catalog)
    (h : catalogAdd cat d now = .ok cat') :
    cat'.records = cat.records ++ [d.toRecord cat.nextId] ∧ cat'.nextId = cat.nextId + 1 := by
  rw [catalogAdd] at h
  by_cases hd : hasUsableDuplicate cat.records d.secret now = true
  · rw [if_pos hd] at h; cases h
  · rw [if_neg hd] at h
    cases h
    exact ⟨rfl, rfl⟩

theorem catalogRemove_ok_state (cat : Catalog) (pid : PassphraseId) (cat' : Catalog)
    (h : catalogRemove cat pid = .ok cat') :
    cat'.records = cat.records.filter (fun p => p.id != pid) ∧ cat'.nextId = cat.nextId := by
  rw [catalogRemove] at h
  by_cases ha : cat.records.any (fun p => p.id == pid) = true
  · rw [if_pos ha] at h
    cases h
    exact ⟨rfl, rfl⟩
  · rw [if_neg ha] at h; cases h

theorem catalogInvalidate_ok_state (cat : Catalog) (pid : PassphraseId) (now : Time)
    (cat' : Catalog) (h : catalogInvalidate cat pid now = .ok cat') :
    cat'.records = cat.records.map
      (fun p => if p.id == pid then { p with valid_until := some now } else p) ∧
    cat'.nextId = cat.nextId := by
  rw [catalogInvalidate] at h
  by_cases ha : cat.records.any (fun p => p.id == pid) = true
  · rw [if_pos ha] at h
    cases h
    exact ⟨rfl, rfl⟩
  · rw [if_neg ha] at h; cases h

theorem derive_ok_state (cat : Catalog) (parentId : PassphraseId) (rq : Role) (now : Time)
    (res : Catalog × Passphrase) (h : derive cat parentId rq now = .ok res) :
    res.1.records = cat.records ++ [res.2] ∧ res.1.nextId = cat.nextId + 1 ∧
    res.2.id = cat.nextId := by
  unfold derive at h
  cases hf : cat.records.find? (fun p => p.id == parentId) with
  | none => rw [hf] at h; cases h
  | some parent =>
      simp only [hf] at h
      by_cases hu : usableAt parent now = true
      · rw [if_pos hu] at h
        by_cases hr : sharableCounterpart parent.role = some rq
        · rw [if_pos hr] at h
          injection h with h1
          exact ⟨by rw [← h1], by rw [← h1], by rw [← h1]⟩
        · rw [if_neg hr] at h; cases h
      · rw [if_neg hu] at h; cases h

theorem CatalogsFresh_setCatalog {st : State} (h : CatalogsFresh st) (e : EventId)
    {cat : Catalog} (hcat : catFresh cat) : CatalogsFresh (st.setCatalog e cat) := by
  unfold State.setCatalog
  by_cases hany : st.catalogs.any (fun ec => ec.1 == e) = true
  · rw [if_pos hany]
    intro ec' hec'
    obtain ⟨ec, hec, hf⟩ := List.mem_map.mp hec'
    by_cases hc : ec.1 = e
    · rw [if_pos hc] at hf
      rw [← hf]
      exact hcat
    · rw [if_neg hc] at hf
      rw [← hf]
      exact h ec hec
  · rw [if_neg hany]
    intro ec' hec'
    rcases List.mem_cons.mp hec' with hh | hh
    · rw [hh]
      exact hcat
    · exact h ec' hh

/-- Replacing one event's catalog preserves the C3 invariant provided the new
catalog is fresh, its id counter did not decrease, and every new record
either keeps the id and role of an old record or has an id at or above the
old counter. -/
theorem c3inv_setCatalog (t' : Token) (e : EventId) (r : Role) (st : State) (e₀ : EventId)
    (cat' : Catalog) (hinv : C3Inv t' e r st) (hfresh : catFresh cat')
    (hnext : e₀ = e → (st.catalog e).nextId ≤ cat'.nextId)
    (hrec : e₀ = e → ∀ p' ∈ cat'.records,
      (∃ p ∈ (st.catalog e).records, p'.id = p.id ∧ p'.role = p.role) ∨
      (st.catalog e).nextId ≤ p'.id)
    (hu : e₀ = e → UniqueIdsAt st e →
      ∀ p' ∈ cat'.records, ∀ q' ∈ cat'.records, p'.id = q'.id → p' = q') :
    C3Inv t' e r (st.setCatalog e₀ cat') := by
  obtain ⟨htb, ht', hcf, hui, hgr⟩ := hinv
  refine ⟨?_, ?_, CatalogsFresh_setCatalog hcf e₀ hfresh, ?_, ?_⟩
  · intro ts hts
    have hs : (st.setCatalog e₀ cat').store = st.store := store_setCatalog st e₀ cat'
    rw [hs] at hts ⊢
    exact htb ts hts
  · have hs : (st.setCatalog e₀ cat').store = st.store := store_setCatalog st e₀ cat'
    rw [hs]
    exact ht'
  · unfold UniqueIdsAt
    by_cases hce : e₀ = e
    · subst hce
      rw [catalog_setCatalog_self]
      exact hu rfl hui
    · rw [catalog_setCatalog_ne st e₀ e cat' (fun hc => hce hc.symm)]
      exact hui
  · intro sess hget g hg hge
    have hs : (st.setCatalog e₀ cat').store = st.store := store_setCatalog st e₀ cat'
    rw [show (st.setCatalog e₀ cat').store.get t' = st.store.get t' from by rw [hs]] at hget
    have hold := hgr sess hget g hg hge
    by_cases hce : e₀ = e
    · subst hce
      rw [catalog_setCatalog_self]
      refine ⟨lt_of_lt_of_le hold.1 (hnext rfl), ?_⟩
      intro p' hp' hid
      rcases hrec rfl p' hp' with ⟨p, hp, hpid, hprole⟩ | hbig
      · rw [hprole]
        exact hold.2 p hp (hpid.symm.trans hid)
      · exfalso
        rw [hid] at hbig
        exact absurd hold.1 (not_lt.mpr hbig)
    · rw [catalog_setCatalog_ne st e₀ e cat' (fun hc => hce hc.symm)]
      exact hold

/-- One step of any public operation preserves the C3 invariant, provided the
step is not a successful role-`r` authorization carrying the rotated-in token
for the affected event. -/
theorem c3inv_preserved (t' : Token) (e : EventId) (r : Role) (st : State) (op : Op)
    (hinv : C3Inv t' e r st) (hop : ¬ opGrantsRole st op t' e r) :
    C3Inv t' e r (applyOp st op) := by
  obtain ⟨htb, ht', hcf, hui, hgr⟩ := hinv
  cases op with
  | opAuthorize tok₀ e₀ c now₀ =>
      cases ha : authorize st tok₀ e₀ c now₀ with
      | error err =>
          simp only [applyOp, ha]
          exact ⟨htb, ht', hcf, hui, hgr⟩
      | ok res =>
          simp only [applyOp, ha]
          obtain ⟨P, hm, hcase⟩ := authorize_ok_state st tok₀ e₀ c now₀ res ha
          rcases hcase with ⟨t, sess, htok, hget, hst1, -⟩ | ⟨hst1, -⟩
          · rw [hst1]
            refine ⟨?_, ht', hcf, hui, ?_⟩
            · intro ts' hts'
              obtain ⟨ts, hts, hf⟩ := List.mem_map.mp hts'
              have hkey : ts'.1 = ts.1 := by
                by_cases hc : ts.1 = t
                · rw [← hf, if_pos hc]
                  exact hc.symm
                · rw [← hf, if_neg hc]
              show ts'.1 < st.store.nextToken
              rw [hkey]
              exact htb ts hts
            · intro sess₁ hget₁ g hg hge
              by_cases hct : t = t'
              · subst hct
                have hsome : (lookupSession st.store.sessions t).isSome := by
                  have hx : lookupSession st.store.sessions t = some sess := hget
                  rw [hx]
                  rfl
                have hlook := lookupSession_set_self st.store.sessions t
                  ⟨insertGrant sess.grants (e₀, P.id)⟩ hsome
                have hsess₁ : sess₁ = ⟨insertGrant sess.grants (e₀, P.id)⟩ := by
                  have hx : some (⟨insertGrant sess.grants (e₀, P.id)⟩ : Session) = some sess₁ := by
                    rw [← hget₁]
                    exact hlook.symm
                  exact (Option.some_injective _ hx).symm
                rw [hsess₁] at hg
                rcases (mem_insertGrant sess.grants (e₀, P.id) g).mp hg with hgs | hgp
                · exact hgr sess hget g hgs hge
                · by_cases hce : e₀ = e
                  · have hPr : P.role ≠ r := fun hPr =>
                      hop ⟨c, now₀, P, by rw [htok, hce], by rw [← hce]; exact hm, hPr⟩
                    have hPmem : P ∈ (st.catalog e).records := by
                      rw [← hce]
                      exact matchSecret_matched_mem _ c now₀ P hm
                    rw [hgp]
                    refine ⟨?_, ?_⟩
                    · exact catFresh_catalog hcf e P hPmem
                    · intro p hp hpid
                      have hpe : p ∈ (st.catalog e).records := hp
                      have hpP : p = P := hui p hpe P hPmem hpid
                      rw [hpP]
                      exact hPr
                  · exfalso
                    rw [hgp] at hge
                    exact hce hge
              · have hlook := lookupSession_set_ne st.store.sessions t t'
                  ⟨insertGrant sess.grants (e₀, P.id)⟩ (fun hc => hct hc.symm)
                have hget' : st.store.get t' = some sess₁ := by
                  rw [show st.store.get t' = lookupSession st.store.sessions t' from rfl,
                    ← hlook]
                  exact hget₁
                exact hgr sess₁ hget' g hg hge
          · rw [hst1]
            refine ⟨?_, Nat.lt_succ_of_lt ht', hcf, hui, ?_⟩
            · intro ts' hts'
              show ts'.1 < st.store.nextToken + 1
              rcases List.mem_cons.mp hts' with hh | hh
              · rw [hh]
                exact Nat.lt_succ_self _
              · exact Nat.lt_succ_of_lt (htb ts' hh)
            · intro sess₁ hget₁ g hg hge
              have hne : ¬ st.store.nextToken = t' := fun hc => absurd (hc ▸ ht') (lt_irrefl t')
              have hget' : st.store.get t' = some sess₁ := by
                rw [show ({ st with store := ⟨(st.store.nextToken, ⟨[(e₀, P.id)]⟩) ::
                    st.store.sessions, st.store.nextToken + 1⟩ } : State).store.get t' =
                    (if st.store.nextToken = t' then some (⟨[(e₀, P.id)]⟩ : Session)
                     else lookupSession st.store.sessions t') from rfl, if_neg hne] at hget₁
                exact hget₁
              exact hgr sess₁ hget' g hg hge
  | opDropRole tok₀ e₀ r₀ now₀ =>
      cases hd : drop_access_role st tok₀ e₀ r₀ now₀ with
      | error err =>
          simp only [applyOp, hd]
          exact ⟨htb, ht', hcf, hui, hgr⟩
      | ok res =>
          simp only [applyOp, hd]
          obtain ⟨sess, hget, hany, hst1, -, -⟩ := drop_ok_state st tok₀ e₀ r₀ now₀ res hd
          rw [hst1]
          refine ⟨?_, Nat.lt_succ_of_lt ht', hcf, hui, ?_⟩
          · intro ts' hts'
            show ts'.1 < st.store.nextToken + 1
            rcases List.mem_cons.mp hts' with hh | hh
            · rw [hh]
              exact Nat.lt_succ_self _
            · have hmem := List.mem_filter.mp hh
              exact Nat.lt_succ_of_lt (htb ts' hmem.1)
          · intro sess₁ hget₁ g hg hge
            have hne : ¬ st.store.nextToken = t' := fun hc => absurd (hc ▸ ht') (lt_irrefl t')
            have hget'' : lookupSession (st.store.remove tok₀).sessions t' = some sess₁ := by
              rw [show ({ st with store := ⟨(st.store.nextToken,
                  (⟨sess.grants.filter (fun g => !(grantBacksRole st e₀ r₀ g))⟩ : Session)) ::
                  (st.store.remove tok₀).sessions, st.store.nextToken + 1⟩ } : State).store.get t' =
                  (if st.store.nextToken = t' then
                    some (⟨sess.grants.filter (fun g => !(grantBacksRole st e₀ r₀ g))⟩ : Session)
                   else lookupSession (st.store.remove tok₀).sessions t') from rfl,
                if_neg hne] at hget₁
              exact hget₁
            by_cases hct : tok₀ = t'
            · subst hct
              rw [show (st.store.remove tok₀).sessions =
                  st.store.sessions.filter (fun ts => ts.1 != tok₀) from rfl,
                lookupSession_remove_self] at hget''
              cases hget''
            · rw [show (st.store.remove tok₀).sessions =
                  st.store.sessions.filter (fun ts => ts.1 != tok₀) from rfl,
                lookupSession_remove_ne st.store.sessions tok₀ t'
                  (fun hc => hct hc.symm)] at hget''
              exact hgr sess₁ hget'' g hg hge
  | opDropAll tok₀ =>
      simp only [applyOp]
      refine ⟨?_, ht', hcf, hui, ?_⟩
      · intro ts' hts'
        have hmem := List.mem_filter.mp hts'
        exact htb ts' hmem.1
      · intro sess₁ hget₁ g hg hge
        by_cases hct : tok₀ = t'
        · rw [hct] at hget₁
          rw [show ({ st with store := st.store.remove t' } : State).store.get t' =
              lookupSession (st.store.sessions.filter (fun ts => ts.1 != t')) t' from rfl,
            lookupSession_remove_self] at hget₁
          cases hget₁
        · rw [show ({ st with store := st.store.remove tok₀ } : State).store.get t' =
              lookupSession (st.store.sessions.filter (fun ts => ts.1 != tok₀)) t' from rfl,
            lookupSession_remove_ne st.store.sessions tok₀ t' (fun hc => hct hc.symm)] at hget₁
          exact hgr sess₁ hget₁ g hg hge
  | opCatalogAdd e₀ d now₀ =>
      cases hc : catalogAdd (st.catalog e₀) d now₀ with
      | error err =>
          simp only [applyOp, hc]
          exact ⟨htb, ht', hcf, hui, hgr⟩
      | ok cat' =>
          simp only [applyOp, hc]
          obtain ⟨hrec, hnext⟩ := catalogAdd_ok_state (st.catalog e₀) d now₀ cat' hc
          have hfr := catFresh_catalog hcf e₀
          apply c3inv_setCatalog t' e r st e₀ cat' ⟨htb, ht', hcf, hui, hgr⟩
          · intro p hp
            rw [hrec] at hp
            rw [hnext]
            rcases List.mem_append.mp hp with hh | hh
            · exact Nat.lt_succ_of_lt (hfr p hh)
            · rw [List.mem_singleton.mp hh]
              show (st.catalog e₀).nextId < (st.catalog e₀).nextId + 1
              exact Nat.lt_succ_self _
          · intro hce
            subst hce
            rw [hnext]
            exact Nat.le_succ _
          · intro hce
            subst hce
            intro p' hp'
            rw [hrec] at hp'
            rcases List.mem_append.mp hp' with hh | hh
            · exact Or.inl ⟨p', hh, rfl, rfl⟩
            · rw [List.mem_singleton.mp hh]
              exact Or.inr le_rfl
          · intro hce hold p' hp' q' hq' hid
            rw [hrec] at hp' hq'
            rcases List.mem_append.mp hp' with hp1 | hp1 <;>
              rcases List.mem_append.mp hq' with hq1 | hq1
            · rw [hce] at hp1 hq1
              exact hold p' hp1 q' hq1 hid
            · exfalso
              rw [List.mem_singleton.mp hq1] at hid
              exact absurd hid (Nat.ne_of_lt (hfr p' hp1))
            · exfalso
              rw [List.mem_singleton.mp hp1] at hid
              exact absurd hid.symm (Nat.ne_of_lt (hfr q' hq1))
            · rw [List.mem_singleton.mp hp1, List.mem_singleton.mp hq1]
  | opCatalogRemove e₀ pid =>
      cases hc : catalogRemove (st.catalog e₀) pid with
      | error err =>
          simp only [applyOp, hc]
          exact ⟨htb, ht', hcf, hui, hgr⟩
      | ok cat' =>
          simp only [applyOp, hc]
          obtain ⟨hrec, hnext⟩ := catalogRemove_ok_state (st.catalog e₀) pid cat' hc
          have hfr := catFresh_catalog hcf e₀
          apply c3inv_setCatalog t' e r st e₀ cat' ⟨htb, ht', hcf, hui, hgr⟩
          · intro p hp
            rw [hrec] at hp
            rw [hnext]
            exact hfr p (List.mem_filter.mp hp).1
          · intro hce
            subst hce
            rw [hnext]
          · intro hce
            subst hce
            intro p' hp'
            rw [hrec] at hp'
            exact Or.inl ⟨p', (List.mem_filter.mp hp').1, rfl, rfl⟩
          · intro hce hold p' hp' q' hq' hid
            rw [hrec] at hp' hq'
            have hp1 := (List.mem_filter.mp hp').1
            have hq1 := (List.mem_filter.mp hq').1
            rw [hce] at hp1 hq1
            exact hold p' hp1 q' hq1 hid
  | opCatalogInvalidate e₀ pid now₀ =>
      cases hc : catalogInvalidate (st.catalog e₀) pid now₀ with
      | error err =>
          simp only [applyOp, hc]
          exact ⟨htb, ht', hcf, hui, hgr⟩
      | ok cat' =>
          simp only [applyOp, hc]
          obtain ⟨hrec, hnext⟩ := catalogInvalidate_ok_state (st.catalog e₀) pid now₀ cat' hc
          have hfr := catFresh_catalog hcf e₀
          have hshape : ∀ p' ∈ cat'.records, ∃ p ∈ (st.catalog e₀).records,
              p'.id = p.id ∧ p'.role = p.role := by
            intro p' hp'
            rw [hrec] at hp'
            obtain ⟨p, hp, hf⟩ := List.mem_map.mp hp'
            by_cases hpp : p.id == pid
            · rw [if_pos hpp] at hf
              exact ⟨p, hp, by rw [← hf], by rw [← hf]⟩
            · rw [if_neg hpp] at hf
              exact ⟨p, hp, by rw [← hf], by rw [← hf]⟩
          apply c3inv_setCatalog t' e r st e₀ cat' ⟨htb, ht', hcf, hui, hgr⟩
          · intro p hp
            obtain ⟨q, hq, hqid, -⟩ := hshape p hp
            rw [hnext, hqid]
            exact hfr q hq
          · intro hce
            subst hce
            rw [hnext]
          · intro hce
            subst hce
            intro p' hp'
            exact Or.inl (hshape p' hp')
          · intro hce hold p' hp' q' hq' hid
            rw [hrec] at hp' hq'
            obtain ⟨p, hp, hfp⟩ := List.mem_map.mp hp'
            obtain ⟨q, hq, hfq⟩ := List.mem_map.mp hq'
            have hpid : p'.id = p.id := by
              by_cases hc : p.id == pid
              · rw [if_pos hc] at hfp
                rw [← hfp]
              · rw [if_neg hc] at hfp
                rw [← hfp]
            have hqid : q'.id = q.id := by
              by_cases hc : q.id == pid
              · rw [if_pos hc] at hfq
                rw [← hfq]
              · rw [if_neg hc] at hfq
                rw [← hfq]
            rw [hce] at hp hq
            have hpq : p = q := hold p hp q hq (by rw [← hpid, ← hqid]; exact hid)
            rw [← hfp, ← hfq, hpq]
  | opDerive e₀ parentId r₀ now₀ =>
      cases hc : derive (st.catalog e₀) parentId r₀ now₀ with
      | error err =>
          simp only [applyOp, hc]
          exact ⟨htb, ht', hcf, hui, hgr⟩
      | ok res =>
          simp only [applyOp, hc]
          obtain ⟨hrec, hnext, hnew⟩ := derive_ok_state (st.catalog e₀) parentId r₀ now₀ res hc
          have hfr := catFresh_catalog hcf e₀
          apply c3inv_setCatalog t' e r st e₀ res.1 ⟨htb, ht', hcf, hui, hgr⟩
          · intro p hp
            rw [hrec] at hp
            rw [hnext]
            rcases List.mem_append.mp hp with hh | hh
            · exact Nat.lt_succ_of_lt (hfr p hh)
            · rw [List.mem_singleton.mp hh, hnew]
              exact Nat.lt_succ_self _
          · intro hce
            subst hce
            rw [hnext]
            exact Nat.le_succ _
          · intro hce
            subst hce
            intro p' hp'
            rw [hrec] at hp'
            rcases List.mem_append.mp hp' with hh | hh
            · exact Or.inl ⟨p', hh, rfl, rfl⟩
            · rw [List.mem_singleton.mp hh, hnew]
              exact Or.inr le_rfl
          · intro hce hold p' hp' q' hq' hid
            rw [hrec] at hp' hq'
            rcases List.mem_append.mp hp' with hp1 | hp1 <;>
              rcases List.mem_append.mp hq' with hq1 | hq1
            · rw [hce] at hp1 hq1
              exact hold p' hp1 q' hq1 hid
            · exfalso
              rw [List.mem_singleton.mp hq1, hnew] at hid
              exact absurd hid (Nat.ne_of_lt (hfr p' hp1))
            · exfalso
              rw [List.mem_singleton.mp hp1] at hid
              rw [hnew] at hid
              exact absurd hid.symm (Nat.ne_of_lt (hfr q' hq1))
            · rw [List.mem_singleton.mp hp1, List.mem_singleton.mp hq1]

theorem c3inv_runOps (t' : Token) (e : EventId) (r : Role) (ops : List Op) :
    ∀ st, C3Inv t' e r st → avoidsRoleAuth t' e r st ops →
      C3Inv t' e r (runOps st ops) := by
  induction ops with
  | nil =>
      intro st h _
      exact h
  | cons op ops ih =>
      intro st h hav
      obtain ⟨h1, h2⟩ := hav
      rw [runOps, List.foldl_cons]
      exact ih (applyOp st op) (c3inv_preserved t' e r st op h h1) h2

theorem c3inv_no_role (t' : Token) (e : EventId) (r : Role) (st : State) (now : Time)
    (h : C3Inv t' e r st) :
    r ∉ reportedRoles (check_authorization st (some t') e now) := by
  obtain ⟨-, -, -, -, hgr⟩ := h
  cases hg : st.store.get t' with
  | none =>
      simp [check_authorization, hg, reportedRoles]
  | some sess =>
      simp only [check_authorization, hg, reportedRoles]
      intro hr
      rw [mem_sessionRoles] at hr
      obtain ⟨g, hgm, hge, hrole⟩ := hr
      unfold roleOfGrant at hrole
      cases hf : (st.catalog g.1).records.find? (fun p => p.id == g.2 && usableAt p now) with
      | none => rw [hf] at hrole; cases hrole
      | some p =>
          rw [hf] at hrole
          injection hrole with hpr
          have hpmem : p ∈ (st.catalog g.1).records := List.mem_of_find?_eq_some hf
          have hppred := List.find?_some hf
          simp only [Bool.and_eq_true, beq_iff_eq] at hppred
          have hsafe := (hgr sess hg g hgm hge).2
          rw [hge] at hpmem
          exact hsafe p hpmem hppred.1 (by rw [hpr])

/-- C3 (amended): a successful `drop_access_role(token, E, role)` rotates the
token; the returned authorization no longer contains `role` while every
other role of the session for `E` and the roles for every other event are
unchanged; `check_authorization` with the old token reports
`InvalidSessionToken`; and the new token's session never again reports
`role` for `E` in any subsequent state reached without a successful
re-authorization of the new token for `E` with a passphrase of role `role`
itself — re-logins with passphrases of other roles keep the guarantee. -/
theorem c3_drop_role_rotation (st : State) (tok : Token) (e : EventId) (r : Role) (now : Time)
    (res : State × Token × List Role)
    (hdrop : drop_access_role st tok e r now = .ok res)
    (htb : TokensBelow st) (hcf : CatalogsFresh st)
    (hids : ∀ p ∈ (st.catalog e).records, ∀ q ∈ (st.catalog e).records, p.id = q.id → p = q)
    (hgb : ∀ sess, st.store.get tok = some sess → ∀ g ∈ sess.grants, g.1 = e →
      g.2 < (st.catalog e).nextId) :
    r ∉ res.2.2 ∧
    (∀ sess, st.store.get tok = some sess →
      (∀ r', r' ≠ r → (r' ∈ res.2.2 ↔ r' ∈ sessionRoles st sess e now)) ∧
      (∀ e', e' ≠ e → ∀ now' sess₁, res.1.store.get res.2.1 = some sess₁ →
        sessionRoles res.1 sess₁ e' now' = sessionRoles st sess e' now')) ∧
    check_authorization res.1 (some tok) e now = .error .InvalidSessionToken ∧
    (∀ ops, avoidsRoleAuth res.2.1 e r res.1 ops →
      ∀ now₂, r ∉ reportedRoles (check_authorization (runOps res.1 ops) (some res.2.1) e now₂)) := by
  obtain ⟨sess, hget, hany, hst1, ht1, hinfo⟩ := drop_ok_state st tok e r now res hdrop
  have hbacksFalse : ∀ g ∈ sess.grants, grantBacksRole st e r g = false → g.1 = e →
      ∀ p ∈ (st.catalog e).records, p.id = g.2 → p.role ≠ r := by
    intro g hg hb hge p hp hpid hpr
    have hball : ¬ ((g.1 == e) &&
        (st.catalog e).records.any (fun p => p.id == g.2 && p.role == r)) = true := by
      rw [show ((g.1 == e) &&
          (st.catalog e).records.any (fun p => p.id == g.2 && p.role == r)) =
          grantBacksRole st e r g from rfl, hb]
      simp
    apply hball
    simp only [Bool.and_eq_true, beq_iff_eq, List.any_eq_true]
    exact ⟨hge, p, hp, by simp [hpid, hpr]⟩
  have hnoR : r ∉ sessionRoles st
      ⟨sess.grants.filter (fun g => !(grantBacksRole st e r g))⟩ e now := by
    intro hr
    rw [mem_sessionRoles] at hr
    obtain ⟨g, hgm, hge, hrole⟩ := hr
    have hgf := List.mem_filter.mp hgm
    have hb : grantBacksRole st e r g = false := by
      have := hgf.2
      simp only [Bool.not_eq_true'] at this
      exact this
    unfold roleOfGrant at hrole
    cases hf : (st.catalog g.1).records.find? (fun p => p.id == g.2 && usableAt p now) with
    | none => rw [hf] at hrole; cases hrole
    | some p =>
        rw [hf] at hrole
        injection hrole with hpr
        have hpmem : p ∈ (st.catalog g.1).records := List.mem_of_find?_eq_some hf
        have hppred := List.find?_some hf
        simp only [Bool.and_eq_true, beq_iff_eq] at hppred
        rw [hge] at hpmem
        exact hbacksFalse g hgf.1 hb hge p hpmem hppred.1 hpr
  have hnewget : res.1.store.get res.2.1 = some
      ⟨sess.grants.filter (fun g => !(grantBacksRole st e r g))⟩ := by
    rw [hst1, ht1]
    show (if st.store.nextToken = st.store.nextToken then _ else _) = _
    rw [if_pos rfl]
  have htokLt : tok < st.store.nextToken := by
    have hmem := lookupSession_some_mem st.store.sessions tok sess hget
    exact htb (tok, sess) hmem
  refine ⟨?_, ?_, ?_, ?_⟩
  · rw [hinfo]
    exact hnoR
  · intro sess0 hget0
    have hsess0 : sess0 = sess := by
      have hx : some sess = some sess0 := by rw [← hget, ← hget0]
      exact (Option.some_injective _ hx).symm
    rw [hsess0]
    constructor
    · intro r' hr'
      rw [hinfo]
      rw [mem_sessionRoles, mem_sessionRoles]
      constructor
      · rintro ⟨g, hgm, hge, hrole⟩
        exact ⟨g, (List.mem_filter.mp hgm).1, hge, hrole⟩
      · rintro ⟨g, hgm, hge, hrole⟩
        refine ⟨g, ?_, hge, hrole⟩
        rw [List.mem_filter]
        refine ⟨hgm, ?_⟩
        rw [Bool.not_eq_true']
        cases hgb2 : grantBacksRole st e r g
        · rfl
        · exfalso
          have hb' : grantBacksRole st e r g = true := hgb2
          unfold grantBacksRole at hb'
          simp only [Bool.and_eq_true, beq_iff_eq, List.any_eq_true] at hb'
          obtain ⟨-, p₀, hp₀, hp₀pred⟩ := hb'
          try simp only [Bool.and_eq_true, beq_iff_eq] at hp₀pred
          unfold roleOfGrant at hrole
          cases hf : (st.catalog g.1).records.find? (fun p => p.id == g.2 && usableAt p now) with
          | none => rw [hf] at hrole; cases hrole
          | some p₁ =>
              rw [hf] at hrole
              injection hrole with hpr
              have hp₁mem : p₁ ∈ (st.catalog g.1).records := List.mem_of_find?_eq_some hf
              have hp₁pred := List.find?_some hf
              simp only [Bool.and_eq_true, beq_iff_eq] at hp₁pred
              rw [hge] at hp₁mem
              have : p₀ = p₁ := hids p₀ hp₀ p₁ hp₁mem (hp₀pred.1.trans hp₁pred.1.symm)
              rw [this, hpr] at hp₀pred
              exact hr' hp₀pred.2
    · intro e' he' now' sess₁ hget₁
      have hsess₁ : sess₁ = ⟨sess.grants.filter (fun g => !(grantBacksRole st e r g))⟩ := by
        have : some (⟨sess.grants.filter (fun g => !(grantBacksRole st e r g))⟩ : Session) =
            some sess₁ := by rw [← hnewget, ← hget₁]
        exact (Option.some_injective _ this).symm
      subst hsess₁
      rw [hst1]
      show sessionRoles st _ e' now' = sessionRoles st sess e' now'
      unfold sessionRoles
      have hff : (sess.grants.filter (fun g => !(grantBacksRole st e r g))).filter
          (fun g => g.1 == e') = sess.grants.filter (fun g => g.1 == e') := by
        rw [List.filter_filter]
        apply List.filter_congr
        intro g hg
        by_cases hge : g.1 = e'
        · have hb : grantBacksRole st e r g = false := by
            unfold grantBacksRole
            have : (g.1 == e) = false := by
              simp only [beq_eq_false_iff_ne, ne_eq]
              rw [hge]
              exact he'
            rw [this]
            rfl
          simp [hge, hb]
        · simp [hge]
      rw [hff]
  · rw [hst1]
    have hne : ¬ st.store.nextToken = tok := fun hc => absurd (hc ▸ htokLt) (lt_irrefl tok)
    have hgone : ({ st with store := ⟨(st.store.nextToken,
        (⟨sess.grants.filter (fun g => !(grantBacksRole st e r g))⟩ : Session)) ::
        (st.store.remove tok).sessions, st.store.nextToken + 1⟩ } : State).store.get tok =
        none := by
      show (if st.store.nextToken = tok then _ else
        lookupSession (st.store.remove tok).sessions tok) = _
      rw [if_neg hne]
      exact lookupSession_remove_self st.store.sessions tok
    simp [check_authorization, hgone]
  · intro ops hops now₂
    apply c3inv_no_role
    apply c3inv_runOps res.2.1 e r ops res.1 ?_ hops
    rw [hst1, ht1]
    refine ⟨?_, Nat.lt_succ_self _, hcf, hids, ?_⟩
    · intro ts' hts'
      show ts'.1 < st.store.nextToken + 1
      rcases List.mem_cons.mp hts' with hh | hh
      · rw [hh]
        exact Nat.lt_succ_self _
      · have hmem := List.mem_filter.mp hh
        exact Nat.lt_succ_of_lt (htb ts' hmem.1)
    · intro sess₁ hget₁ g hg hge
      have hsess₁ : sess₁ = ⟨sess.grants.filter (fun g => !(grantBacksRole st e r g))⟩ := by
        have hx : (if st.store.nextToken = st.store.nextToken then
            some (⟨sess.grants.filter (fun g => !(grantBacksRole st e r g))⟩ : Session) else
            lookupSession (st.store.remove tok).sessions st.store.nextToken) = some sess₁ :=
          hget₁
        rw [if_pos rfl] at hx
        exact (Option.some_injective _ hx).symm
      subst hsess₁
      have hgf := List.mem_filter.mp hg
      have hb : grantBacksRole st e r g = false := by
        have := hgf.2
        simp only [Bool.not_eq_true'] at this
        exact this
      exact ⟨hgb sess hget g hgf.1 hge, hbacksFalse g hgf.1 hb hge⟩

/-- Concrete state for C3: event 1 with "user"/participant (id 1) and
"admin"/admin (id 3); one session (token 1) holding both grants; next token
2. -/
def c3st : State :=
  ⟨[(1, ⟨[⟨1, some "user", .participant, none, none, none, none⟩,
          ⟨3, some "admin", .admin, none, none, none, none⟩], 4⟩)],
   ⟨[(1, ⟨[(1, 1), (1, 3)]⟩)], 2⟩⟩

/-- The state after dropping the admin role from token 1 of `c3st`: the
session was rotated to token 2 and keeps only the participant grant. -/
def c3stAfter : State :=
  ⟨[(1, ⟨[⟨1, some "user", .participant, none, none, none, none⟩,
          ⟨3, some "admin", .admin, none, none, none, none⟩], 4⟩)],
   ⟨[(2, ⟨[(1, 1)]⟩)], 3⟩⟩

/-- C3 counterexample: after `drop_access_role(1, event 1, admin)` yields the
new token 2, the immediately following state no longer reports admin — but a
*subsequent state* in which the user re-authorizes with the admin passphrase
on token 2 reports admin again, so "in every subsequent state
check_authorization(new_token, E) never reports role" is false as stated. -/
theorem c3_never_again_counterexample :
    drop_access_role c3st 1 1 Role.admin 0 = .ok (c3stAfter, 2, [Role.participant]) ∧
    Role.admin ∉ reportedRoles (check_authorization c3stAfter (some 2) 1 0) ∧
    Role.admin ∈ reportedRoles (check_authorization
      (runOps c3stAfter [Op.opAuthorize (some 2) 1 "admin" 0]) (some 2) 1 0) := by decide

/-- Witness for the amended C3 on the concrete state: dropping admin rotates
token 1 to token 2, the returned info holds only participant, the old token
is reported invalid, no continuation avoiding a successful admin-passphrase
authorize on token 2 for event 1 ever reports admin again — and in
particular an ordinary participant re-login on token 2 keeps the
guarantee. -/
theorem c3_drop_role_rotation_witness :
    (TokensBelow c3st ∧ CatalogsFresh c3st) ∧
    drop_access_role c3st 1 1 Role.admin 0 = .ok (c3stAfter, 2, [Role.participant]) ∧
    Role.admin ∉ [Role.participant] ∧
    check_authorization c3stAfter (some 1) 1 0 = .error .InvalidSessionToken ∧
    (∀ ops, avoidsRoleAuth 2 1 Role.admin c3stAfter ops →
      ∀ now₂, Role.admin ∉ reportedRoles
        (check_authorization (runOps c3stAfter ops) (some 2) 1 now₂)) ∧
    Role.admin ∉ reportedRoles (check_authorization
      (runOps c3stAfter [Op.opAuthorize (some 2) 1 "user" 0]) (some 2) 1 0) := by
  have hgb : ∀ sess, c3st.store.get 1 = some sess → ∀ g ∈ sess.grants, g.1 = 1 →
      g.2 < (c3st.catalog 1).nextId := by
    intro sess hs
    have hx : some (⟨[(1, 1), (1, 3)]⟩ : Session) = some sess := hs
    injection hx with h
    rw [← h]
    decide
  have h := c3_drop_role_rotation c3st 1 1 Role.admin 0 (c3stAfter, 2, [Role.participant])
    (by decide) (by unfold TokensBelow; decide) (by unfold CatalogsFresh catFresh; decide)
    (by decide) hgb
  have havoid : avoidsRoleAuth 2 1 Role.admin c3stAfter [Op.opAuthorize (some 2) 1 "user" 0] := by
    refine ⟨?_, trivial⟩
    rintro ⟨s, n, P, heq, hmm, hPr⟩
    injection heq with h1 h2 h3 h4
    subst h3
    subst h4
    have hcomp : matchSecret (c3stAfter.catalog 1).records "user" 0 =
        .matched ⟨1, some "user", .participant, none, none, none, none⟩ := by decide
    rw [hcomp] at hmm
    injection hmm with hP
    rw [← hP] at hPr
    exact absurd hPr (by decide)
  exact ⟨⟨by unfold TokensBelow; decide, by unfold CatalogsFresh catFresh; decide⟩,
    by decide, h.1, h.2.2.1, h.2.2.2,
    h.2.2.2 [Op.opAuthorize (some 2) 1 "user" 0] havoid 0⟩

end KueaPlan
